import Mathlib

/-!
Verification of the is-an.ai GitOps DNS reconciler.

The reconciler scripts operate on JavaScript strings; we embed them over
`List Char` so that every string operation of the source (endsWith, split,
trim, slice, parseInt, join, replace-first, toLowerCase) has an explicit,
executable Lean counterpart.  Definitions are translated from the
repository's TypeScript sources: the full-zone and incremental PowerDNS
sync scripts and the Cloudflare sync script.
-/

set_option maxHeartbeats 1000000

/-- JavaScript strings are modelled as lists of characters. -/
abbrev Str := List Char

/-- Coerce a Lean string literal to the `List Char` model. -/
def str (s : String) : Str := s.data

/-- JS `String.prototype.toUpperCase` restricted to ASCII (record types are ASCII). -/
def toUpperStr (s : Str) : Str := s.map Char.toUpper

/-- JS `String.prototype.toLowerCase` restricted to ASCII. -/
def toLowerStr (s : Str) : Str := s.map Char.toLower

/-- JS `a.startsWith(b)` / list prefix test. -/
def prefixOf : Str → Str → Bool
  | [], _ => true
  | _ :: _, [] => false
  | a :: as, b :: bs => a = b && prefixOf as bs

/-- JS `a.endsWith(b)`. -/
def suffixOf (p s : Str) : Bool := prefixOf p.reverse s.reverse

/-- JS `s.includes(p)`: `p` occurs as a contiguous substring of `s`. -/
def containsSub (p : Str) : Str → Bool
  | [] => prefixOf p []
  | c :: t => prefixOf p (c :: t) || containsSub p t

/-- Whitespace class used by JS `trim` / `parseInt` (common ASCII whitespace). -/
def jsWS (c : Char) : Bool := c.toNat = 9 || c.toNat = 10 || c.toNat = 11 ||
  c.toNat = 12 || c.toNat = 13 || c.toNat = 32

/-- Decimal digit test. -/
def isDigitC (c : Char) : Bool := 48 ≤ c.toNat && c.toNat ≤ 57

/-- Trim trailing characters satisfying nothing-but-the-right-end scan:
JS `trimEnd`. -/
def trimRightL : Str → Str
  | [] => []
  | c :: t =>
    let r := trimRightL t
    if r.isEmpty && jsWS c then [] else c :: r

/-- JS `String.prototype.trim`. -/
def trimL (s : Str) : Str := trimRightL (s.dropWhile jsWS)

/-- Fuelled splitter behind `splitOnL`; fuel at least `s.length` makes it total
in the JS sense. -/
def splitFuel (sep : Str) : Nat → Str → List Str
  | 0, s => [s]
  | f + 1, [] => [[]]
  | f + 1, x :: rest =>
    if prefixOf sep (x :: rest) then
      [] :: splitFuel sep f ((x :: rest).drop sep.length)
    else
      match splitFuel sep f rest with
      | [] => [[x]]
      | p :: ps => (x :: p) :: ps

/-- JS `s.split(sep)` for a non-empty separator. -/
def splitOnL (sep s : Str) : List Str := splitFuel sep s.length s

/-- JS `list.join(sep)`. -/
def joinSep (sep : Str) : List Str → Str
  | [] => []
  | [x] => x
  | x :: y :: ys => x ++ sep ++ joinSep sep (y :: ys)

/-- Digit character for a value below ten. -/
def digitChar : Nat → Char
  | 0 => '0' | 1 => '1' | 2 => '2' | 3 => '3' | 4 => '4'
  | 5 => '5' | 6 => '6' | 7 => '7' | 8 => '8' | _ => '9'

/-- Fuelled decimal rendering of a natural number (most significant first). -/
def natCharsF : Nat → Nat → Str
  | 0, _ => []
  | f + 1, n => if n < 10 then [digitChar n] else natCharsF f (n / 10) ++ [digitChar (n % 10)]

/-- Decimal rendering of a natural number, JS `String(n)` for integers. -/
def natChars (n : Nat) : Str := natCharsF (n + 1) n

/-- JS `String(i)` for an integer value. -/
def intChars (i : Int) : Str :=
  if i < 0 then '-' :: natChars i.natAbs else natChars i.toNat

/-- Value of a digit string (used by the `parseInt` model). -/
def digitsVal (l : Str) : Nat := l.foldl (fun a c => a * 10 + (c.toNat - 48)) 0

/-- Parse a maximal leading run of decimal digits; `none` when there is none. -/
def parseDigits (s : Str) : Option Nat :=
  let ds := s.takeWhile isDigitC
  if ds.isEmpty then none else some (digitsVal ds)

/-- JS `parseInt(s, 10)` over exact integers: skip leading whitespace, an
optional sign, then a maximal digit run; `none` models `NaN`. -/
def jsParseInt (s : Str) : Option Int :=
  match s.dropWhile jsWS with
  | [] => none
  | c :: r =>
    if c = '+' then (parseDigits r).map Int.ofNat
    else if c = '-' then (parseDigits r).map (fun n => -(n : Int))
    else (parseDigits (c :: r)).map Int.ofNat

/-- `String(parseInt(octet, 10))`: the per-octet rewrite of the A-record
canonicalization (`"010"` becomes `"10"`, garbage becomes `"NaN"`). -/
def renderOctet (s : Str) : Str :=
  match jsParseInt s with
  | none => str "NaN"
  | some i => intChars i

/-- The record types whose content must end with a trailing dot
(`sync-pdns-dns.ts` / the full-sync script's `typesNeedingDot`). -/
def typesNeedingDot : List Str := [str "CNAME", str "MX", str "NS", str "SRV", str "PTR"]

/-- `normalizeContent(type, content)` of the PowerDNS sync script: trailing-dot
rule for CNAME/MX/NS/SRV/PTR, zone-file-fragment extraction and quote
re-wrapping for TXT, integer re-rendering of the four octets for A. -/
def normalizeContent (type content : Str) : Str :=
  let upperType := toUpperStr type
  if typesNeedingDot.contains upperType && !(suffixOf (str ".") content) then
    content ++ str "."
  else if upperType = str "TXT" then
    let c1 :=
      if containsSub (str " IN TXT ") content then
        let parts := splitOnL (str " IN TXT ") content
        if parts.length > 1 then trimL (parts.getD 1 []) else content
      else content
    let c2 :=
      if prefixOf (str "\"") c1 && suffixOf (str "\"") c1 then
        (c1.drop 1).dropLast
      else c1
    str "\"" ++ c2 ++ str "\""
  else if upperType = str "A" then
    if containsSub (str ".") content && (splitOnL (str ".") content).length = 4 then
      joinSep (str ".") ((splitOnL (str ".") content).map renderOctet)
    else content
  else content

example : normalizeContent (str "CNAME") (str "host.example.com") = str "host.example.com." := by
  decide

example : normalizeContent (str "A") (str "010.02.3.4") = str "10.2.3.4" := by decide

example : normalizeContent (str "TXT") (str "v=spf1") = str "\"v=spf1\"" := by decide

example : normalizeContent (str "TXT") (str "x 3600 IN TXT \"hello\"") = str "\"hello\"" := by
  decide

/-! ### Substring machinery for the idempotence proofs -/

theorem digitChar_toNat {d : Nat} (h : d < 10) : (digitChar d).toNat = 48 + d := by
  interval_cases d <;> decide

theorem digitChar_isDigit {d : Nat} (h : d < 10) : isDigitC (digitChar d) = true := by
  interval_cases d <;> decide

theorem natCharsF_digits : ∀ f n, ∀ c ∈ natCharsF f n, isDigitC c = true := by
  intro f
  induction f with
  | zero => intro n c hc; simp [natCharsF] at hc
  | succ g ih =>
    intro n c hc
    by_cases h : n < 10
    · simp only [natCharsF, h, if_true, List.mem_singleton] at hc
      subst hc
      exact digitChar_isDigit h
    · simp only [natCharsF, h, if_false, List.mem_append, List.mem_singleton] at hc
      rcases hc with hc | rfl
      · exact ih (n / 10) c hc
      · exact digitChar_isDigit (Nat.mod_lt n (by omega))

theorem natCharsF_ne_nil {f n : Nat} (h : n < f) : natCharsF f n ≠ [] := by
  cases f with
  | zero => omega
  | succ g =>
    by_cases h10 : n < 10
    · simp [natCharsF, h10]
    · simp only [natCharsF, h10, if_false]
      intro hc
      exact absurd (List.append_eq_nil.mp hc).2 (by simp)

theorem digitsVal_append_singleton (l : Str) (c : Char) :
    digitsVal (l ++ [c]) = digitsVal l * 10 + (c.toNat - 48) := by
  simp [digitsVal, List.foldl_append]

theorem digitsVal_natCharsF : ∀ f n, n < f → digitsVal (natCharsF f n) = n := by
  intro f
  induction f with
  | zero => intro n h; omega
  | succ g ih =>
    intro n h
    by_cases h10 : n < 10
    · simp only [natCharsF, h10, if_true]
      simp [digitsVal, digitChar_toNat h10]
    · simp only [natCharsF, h10, if_false]
      rw [digitsVal_append_singleton]
      have hdiv : n / 10 < g := by
        have := Nat.div_lt_self (by omega : 0 < n) (by omega : 1 < 10)
        omega
      rw [ih (n / 10) hdiv, digitChar_toNat (Nat.mod_lt n (by omega))]
      omega

theorem natChars_digits (n : Nat) : ∀ c ∈ natChars n, isDigitC c = true :=
  natCharsF_digits (n + 1) n

theorem natChars_ne_nil (n : Nat) : natChars n ≠ [] := natCharsF_ne_nil (by omega)

theorem digitsVal_natChars (n : Nat) : digitsVal (natChars n) = n :=
  digitsVal_natCharsF (n + 1) n (by omega)

theorem digit_not_ws {c : Char} (h : isDigitC c = true) : jsWS c = false := by
  simp only [isDigitC, Bool.and_eq_true, decide_eq_true_eq] at h
  simp only [jsWS]
  simp only [Bool.or_eq_false_iff, decide_eq_false_iff_not]
  omega

theorem digit_ne_plus {c : Char} (h : isDigitC c = true) : ¬(c = '+') := by
  rintro rfl
  simp [isDigitC] at h

theorem digit_ne_minus {c : Char} (h : isDigitC c = true) : ¬(c = '-') := by
  rintro rfl
  simp [isDigitC] at h

theorem takeWhile_all {p : Char → Bool} : ∀ l : Str, (∀ c ∈ l, p c = true) → l.takeWhile p = l := by
  intro l
  induction l with
  | nil => intro _; rfl
  | cons c t ih =>
    intro h
    rw [List.takeWhile_cons, h c (by simp)]
    simp [ih (fun x hx => h x (List.mem_cons_of_mem _ hx))]

theorem dropWhile_eq_self_of_head {p : Char → Bool} {c : Char} {t : Str}
    (h : p c = false) : (c :: t).dropWhile p = c :: t := by
  simp [List.dropWhile_cons, h]

theorem parseDigits_all_digits {l : Str} (hne : l ≠ []) (h : ∀ c ∈ l, isDigitC c = true) :
    parseDigits l = some (digitsVal l) := by
  simp only [parseDigits, takeWhile_all l h]
  cases l with
  | nil => exact absurd rfl hne
  | cons c t => simp

theorem suffixOf_append_dot (content : Str) : suffixOf (str ".") (content ++ str ".") = true := by
  simp [suffixOf, str, prefixOf]

/-- `RecordSignature` of the sync scripts: the canonical comparable unit. -/
structure RecordSig where
  subdomain : Str
  rtype : Str
  content : Str
  priority : Option Nat
deriving DecidableEq, Repr

/-- `createRecordSignature(record)` of the sync scripts: render the tuple as
`subdomain:type:content` with `:priority` appended when present. -/
def createRecordSignature (r : RecordSig) : Str :=
  match r.priority with
  | some p => r.subdomain ++ ':' :: r.rtype ++ ':' :: r.content ++ ':' :: natChars p
  | none => r.subdomain ++ ':' :: r.rtype ++ ':' :: r.content
/-- JS `s.replace(pat, "")`: remove the first occurrence of `pat`, if any. -/
def removeFirst (pat : Str) : Str → Str
  | [] => []
  | c :: t => if prefixOf pat (c :: t) then (c :: t).drop pat.length else c :: removeFirst pat t

/-- `fqdnToSubdomain(fqdn)` of the sync scripts: the zone maps to `"@"`,
otherwise the first occurrence of `"." + zone` is removed. -/
def fqdnToSubdomain (zone fqdn : Str) : Str :=
  if fqdn = zone then str "@" else removeFirst ('.' :: zone) fqdn

/-- Strip all trailing dots (the `while (subdomain.endsWith("."))` loop). -/
def dropTrailingDots : Str → Str
  | [] => []
  | c :: t =>
    let r := dropTrailingDots t
    if r.isEmpty && c = '.' then [] else c :: r

/-- `subdomainToFqdn(subdomain)` of both PowerDNS sync scripts: strip leading
and trailing dots, `"@"`/empty maps to the bare zone, join with the zone,
force a trailing dot and lower-case the result. -/
def subdomainToFqdn (zone sub : Str) : Str :=
  let s1 := sub.dropWhile (fun c => c = '.')
  let s2 := dropTrailingDots s1
  let fqdn :=
    if s2 = [] ∨ s2 = str "@" ∨ trimL s2 = [] then zone
    else s2 ++ '.' :: zone
  let fqdn2 := if suffixOf (str ".") fqdn then fqdn else fqdn ++ str "."
  toLowerStr fqdn2

/-- One record of a provider-side RRSet / of a PATCH payload
(`PdnsApiPatchRecord`); the GET-side MX `"prio exchange"` string packing is
inverted by the provider reader, so records are modelled structurally. -/
structure PRec where
  content : Str
  priority : Option Nat
deriving DecidableEq, Repr

/-- A provider-side RRSet (`PdnsApiGetRRSet`, with structural records). -/
structure RRSet where
  name : Str
  rtype : Str
  ttl : Nat
  records : List PRec
deriving DecidableEq, Repr

/-- `changetype` of a PATCH operation. -/
inductive ChangeType where
  | REPLACE
  | DELETE
deriving DecidableEq, Repr

/-- One entry of the PATCH payload (`PdnsApiPatchRRSet`). -/
structure PatchOp where
  name : Str
  rtype : Str
  ttl : Nat
  changetype : ChangeType
  records : List PRec
deriving DecidableEq, Repr

/-- A record value of a repository JSON file: plain string, or the MX
`priority`/`exchange` object. -/
inductive RecordValue where
  | strv (v : Str)
  | mxv (priority : Nat) (exchange : Str)
deriving DecidableEq, Repr

/-- One authored record definition (`RecordDefinition`): the authored type
string and the authored value. -/
structure RecordDef where
  rtype : Str
  value : RecordValue
deriving DecidableEq, Repr

/-- The strict dotted-quad test of the loaders
(regex `^(?:[0-9]{1,3}\.){3}[0-9]{1,3}$`). -/
def isIpv4 (s : Str) : Bool :=
  let parts := splitOnL (str ".") s
  decide (parts.length = 4) &&
    parts.all (fun p => !p.isEmpty && decide (p.length ≤ 3) && p.all isDigitC)

/-- Signatures contributed by one record definition, as the loaders of both
PowerDNS sync scripts build them (`loadAllRepositoryRecords` and
`loadRecordFile`): the type is upper-cased; an `A` definition whose string
value is not a dotted quad is skipped; an MX object value under an `MX` type
becomes exchange content plus priority; any other string value is stored as
the signature content verbatim (the loaders apply no content normalization);
an object value under a non-`MX` type check is dropped. -/
def loadDefSigs (d : Str) (rd : RecordDef) : List RecordSig :=
  match rd.value with
  | RecordValue.strv v =>
    if toUpperStr rd.rtype = str "A" ∧ isIpv4 v = false then []
    else [⟨d, toUpperStr rd.rtype, v, none⟩]
  | RecordValue.mxv p x =>
    if toUpperStr rd.rtype = str "MX" then [⟨d, toUpperStr rd.rtype, x, some p⟩] else []

/-- The loaded repository map (`repositoryRecordsMap`): subdomain to desired
signatures. -/
def loadRepo (repo : List (Str × List RecordDef)) : List (Str × List RecordSig) :=
  repo.map (fun e => (e.1, e.2.flatMap (loadDefSigs e.1)))

/-- All signatures of a loaded repository map. -/
def flatSigs (m : List (Str × List RecordSig)) : List RecordSig := m.flatMap (fun e => e.2)

/-- The signatures of one subdomain in a loaded repository map
(`repositoryRecordsMap.get(subdomain) || []`). -/
def lookupSubs (m : List (Str × List RecordSig)) (d : Str) : List RecordSig :=
  match m.find? (fun e => decide (e.1 = d)) with
  | some e => e.2
  | none => []

/-- The provider reader (`fetchAllPdnsRRSets` + `convertPdnsRRSetToSignatures`):
drop SOA/NS RRSets, then flatten every record of the remaining RRSets into a
signature carrying the provider's literal type. -/
def providerSigs (zone : Str) (P : List RRSet) : List RecordSig :=
  (P.filter (fun r => !decide (r.rtype = str "SOA") && !decide (r.rtype = str "NS"))).flatMap
    (fun r => r.records.map
      (fun rec => ⟨fqdnToSubdomain zone r.name, r.rtype, rec.content, rec.priority⟩))

/-- The diff engine shared by the two full-zone sync scripts (`syncDNSRecords`
of sync-pdns-dns.ts, steps 2-4, and of sync-cloudflare-dns.ts): `toCreate` is
every desired signature whose `createRecordSignature` key is not held,
`toDelete` every held signature whose key is not desired. -/
def diffSigs (desired actual : List RecordSig) : List RecordSig × List RecordSig :=
  (desired.filter (fun s =>
     decide (createRecordSignature s ∉ actual.map createRecordSignature)),
   actual.filter (fun s =>
     decide (createRecordSignature s ∉ desired.map createRecordSignature)))

/-- `PROTECTED_SUBDOMAINS` of the full-zone PowerDNS script: provider-held
signatures of these subdomains are skipped when building `toDelete`. -/
def PROTECTED_SUBDOMAINS : List Str :=
  [str "@", str "www", str "ns1", str "dev", str "blog", str "api"]

/-- `DEFAULT_TTL` of the PowerDNS sync scripts. -/
def DEFAULT_TTL : Nat := 300

/-- `PROTECTED_DOMAINS` of the full-zone PowerDNS script: the fixed FQDN list
matched exactly (`includes`) against the name of each payload entry when
dropping protected DELETEs. -/
def PROTECTED_DOMAINS : List Str :=
  [str "is-an.ai.", str "www.is-an.ai.", str "ns1.is-an.ai.", str "ns2.is-an.ai.",
   str "api.is-an.ai.", str "docs.is-an.ai.", str "status.is-an.ai.",
   str "dashboard.is-an.ai.", str "assets.is-an.ai.", str "_dmarc.is-an.ai.",
   str "smtp.is-an.ai.", str "mail.is-an.ai.", str "_vercel.is-an.ai.",
   str "_domainkey.is-an.ai.", str "_github-challenge-is-an-ai.is-an.ai."]

/-- The full-zone diff (`syncDNSRecords` step 4): `toCreate` as computed by
the engine, and `toDelete` with provider signatures of protected subdomains
skipped (the `PROTECTED_SUBDOMAINS.has` `continue`). -/
def runDiff (zone : Str) (repo : List (Str × List RecordDef)) (P : List RRSet) :
    List RecordSig × List RecordSig :=
  ((diffSigs (flatSigs (loadRepo repo)) (providerSigs zone P)).1,
   (diffSigs (flatSigs (loadRepo repo)) (providerSigs zone P)).2.filter
     (fun s => !decide (s.subdomain ∈ PROTECTED_SUBDOMAINS)))

/-- First-insertion deduplication with an explicit seen accumulator (the
insertion behaviour of a JS `Map`/`Set`: later duplicates are ignored). -/
def firstDedupAux {α : Type} [DecidableEq α] : List α → List α → List α
  | [], _ => []
  | x :: xs, seen =>
    if x ∈ seen then firstDedupAux xs seen else x :: firstDedupAux xs (x :: seen)

/-- First-insertion deduplication of a list. -/
def firstDedup {α : Type} [DecidableEq α] (l : List α) : List α := firstDedupAux l []

/-- `changedRrsetKeys` of the full-zone script (steps 3-4): every repository
(subdomain, type) pair — whether or not it differs from the provider state —
followed by the (subdomain, type) pairs of the unprotected `toDelete`
signatures, first insertion winning. -/
def changedRrsetKeys (zone : Str) (repo : List (Str × List RecordDef)) (P : List RRSet) :
    List (Str × Str) :=
  firstDedup ((flatSigs (loadRepo repo)).map (fun s => (s.subdomain, s.rtype)) ++
    (runDiff zone repo P).2.map (fun s => (s.subdomain, s.rtype)))

/-- The PATCH payload record of a desired signature in the full-zone script
(`normalizeContent(r.type, r.content)` plus the optional priority). -/
def toPRec (r : RecordSig) : PRec := ⟨normalizeContent r.rtype r.content, r.priority⟩

/-- The `finalType` ladder of the full-zone script (the CNAME branch of step
5, written as nested conditions in promotion order): `ALIAS` when the FQDN is
the zone (with or without the appended dot), else `ALIAS` when another
desired type coexists at the subdomain, else `ALIAS` when the subdomain is
not `"@"` and some repository key ends in `"." + subdomain`; literal `CNAME`
otherwise. -/
def cnameFinalType (zone : Str) (m : List (Str × List RecordSig)) (d : Str) : Str :=
  if subdomainToFqdn zone d = zone ++ str "." ∨ subdomainToFqdn zone d = zone then
    str "ALIAS"
  else if (lookupSubs m d).any (fun r => !decide (r.rtype = str "CNAME")) then
    str "ALIAS"
  else if d ≠ str "@" ∧ (m.map Prod.fst).any (fun otherKey => suffixOf ('.' :: d) otherKey) = true
  then str "ALIAS"
  else str "CNAME"

/-- `repoRecordsForRrset.length > 1` CNAME trimming: keep only the first
desired CNAME record. -/
def cnameTrim (l : List RecordSig) : List RecordSig := if 1 < l.length then l.take 1 else l

/-- The payload entries built for one changed (subdomain, type) pair (the
loop body of `syncDNSRecords` step 5): a DELETE when no desired record of the
type remains; for a desired CNAME, nothing under an A/AAAA conflict at the
same subdomain, else one REPLACE under the promoted `finalType` with the
first-trimmed records; one plain REPLACE for any other type. -/
def opsForPair (zone : Str) (m : List (Str × List RecordSig)) (d t : Str) : List PatchOp :=
  if ((lookupSubs m d).filter (fun r => decide (r.rtype = t))).isEmpty then
    [⟨subdomainToFqdn zone d, t, DEFAULT_TTL, ChangeType.DELETE, []⟩]
  else if t = str "CNAME" then
    if (lookupSubs m d).any (fun r => decide (r.rtype = str "A") || decide (r.rtype = str "AAAA"))
    then []
    else
      [⟨subdomainToFqdn zone d, cnameFinalType zone m d, DEFAULT_TTL, ChangeType.REPLACE,
        (cnameTrim ((lookupSubs m d).filter (fun r => decide (r.rtype = t)))).map toPRec⟩]
  else
    [⟨subdomainToFqdn zone d, t, DEFAULT_TTL, ChangeType.REPLACE,
      ((lookupSubs m d).filter (fun r => decide (r.rtype = t))).map toPRec⟩]

/-- `patchPayload` of the full-zone script: the per-pair payload entries of
every changed rrset key, in insertion order. -/
def patchPayload (zone : Str) (repo : List (Str × List RecordDef)) (P : List RRSet) :
    List PatchOp :=
  (changedRrsetKeys zone repo P).flatMap (fun k => opsForPair zone (loadRepo repo) k.1 k.2)

/-- The stable DELETE-before-REPLACE sort of the full-zone payload (the
comparator returns 0 on equal-kind entries, so a stable sort is the
DELETE-first partition). -/
def sortedPayload (zone : Str) (repo : List (Str × List RecordDef)) (P : List RRSet) :
    List PatchOp :=
  (patchPayload zone repo P).filter (fun o => decide (o.changetype = ChangeType.DELETE)) ++
    (patchPayload zone repo P).filter (fun o => !decide (o.changetype = ChangeType.DELETE))

/-- `syncDNSRecords` of the full-zone PowerDNS script: diff, per-pair payload,
DELETE-first sort, then the protected filter dropping every DELETE whose name
is in `PROTECTED_DOMAINS` (the early returns on empty payloads emit the empty
batch, which the filter of the empty list already is). -/
def syncDNSRecords (zone : Str) (repo : List (Str × List RecordDef)) (P : List RRSet) :
    List PatchOp :=
  (sortedPayload zone repo P).filter (fun item =>
    !(decide (item.name ∈ PROTECTED_DOMAINS) && decide (item.changetype = ChangeType.DELETE)))

/-- Applying one PATCH operation to a provider state (PowerDNS RRSet
semantics: REPLACE swaps in the new RRSet, DELETE removes it); used to state
what a converged provider holds after a run. -/
def applyOp (P : List RRSet) (op : PatchOp) : List RRSet :=
  match op.changetype with
  | ChangeType.DELETE =>
    P.filter (fun r => !(decide (r.name = op.name) && decide (r.rtype = op.rtype)))
  | ChangeType.REPLACE =>
    (P.filter (fun r => !(decide (r.name = op.name) && decide (r.rtype = op.rtype)))) ++
      [⟨op.name, op.rtype, op.ttl, op.records⟩]

/-- Applying a whole PATCH batch in order. -/
def applyBatch (P : List RRSet) (ops : List PatchOp) : List RRSet := ops.foldl applyOp P

/-! ### The incremental script (`processChanges`) -/

/-- `normName` of the incremental script: lower-case and strip one trailing
dot before comparing a payload name against the protected list. -/
def normName (n : Str) : Str :=
  if suffixOf (str ".") (toLowerStr n) then (toLowerStr n).dropLast else toLowerStr n

/-- `PROTECTED_DOMAINS` of the incremental script: nine entries, written
without trailing dots and compared through `normName`. -/
def PROTECTED_DOMAINS_INCR : List Str :=
  [str "is-an.ai", str "www.is-an.ai", str "ns1.is-an.ai", str "ns2.is-an.ai",
   str "api.is-an.ai", str "docs.is-an.ai", str "status.is-an.ai",
   str "_dmarc.is-an.ai", str "_vercel.is-an.ai"]

/-- `SOA_MIN_TTL` of the incremental script. -/
def SOA_MIN_TTL : Nat := 300

/-- `getSubdomainRRSets(subdomain)`: the provider RRSets whose lower-cased
name is the FQDN of the subdomain, SOA and NS excluded. -/
def getSubdomainRRSets (zone : Str) (P : List RRSet) (sub : Str) : List RRSet :=
  P.filter (fun rr =>
    decide (toLowerStr rr.name = subdomainToFqdn zone sub) &&
    !decide (rr.rtype = str "SOA") && !decide (rr.rtype = str "NS"))

/-- `normalizeContent` as copied into the incremental script: identical to the
full-zone version except that the A branch re-renders the four octets only
when every dot-separated part is a nonempty digit run. -/
def normalizeContentIncr (type content : Str) : Str :=
  let upperType := toUpperStr type
  if typesNeedingDot.contains upperType && !(suffixOf (str ".") content) then
    content ++ str "."
  else if upperType = str "TXT" then
    let c1 :=
      if containsSub (str " IN TXT ") content then
        trimL ((splitOnL (str " IN TXT ") content).getD 1 [])
      else content
    let c2 :=
      if prefixOf (str "\"") c1 && suffixOf (str "\"") c1 then
        (c1.drop 1).dropLast
      else c1
    str "\"" ++ c2 ++ str "\""
  else if upperType = str "A" then
    if containsSub (str ".") content && (splitOnL (str ".") content).length = 4 &&
        (splitOnL (str ".") content).all (fun p => !p.isEmpty && p.all isDigitC) then
      joinSep (str ".") ((splitOnL (str ".") content).map renderOctet)
    else content
  else content

/-- The incremental PATCH payload record of a desired signature
(`normalizeContent(r.type, r.content)` of the incremental script plus the
optional priority). -/
def toPRecIncr (r : RecordSig) : PRec := ⟨normalizeContentIncr r.rtype r.content, r.priority⟩

/-- The incremental CNAME promotion ladder (`processChanges` step 2-1 (C)):
ALIAS at the apex; ALIAS when the provider holds at least one type but no
CNAME; literal CNAME otherwise. -/
def cnameFinalTypeIncr (sub : Str) (existingTypes : List Str) : Str :=
  if sub = str "@" then str "ALIAS"
  else if !existingTypes.isEmpty && !existingTypes.contains (str "CNAME") then str "ALIAS"
  else str "CNAME"

/-- The payload entries for one grouped type of one changed file (the
per-type loop of `processChanges` step 2): for CNAME, first-trim the records,
drop everything when the file also authors A/AAAA, promote to ALIAS at the
apex or when the provider holds only non-CNAME types, and — when the final
type stays CNAME — first DELETE every provider-held non-CNAME type; then one
REPLACE; any other type yields one plain REPLACE. -/
def opsForFileType (zone sub : Str) (existingTypes typesInFile : List Str)
    (t : Str) (records : List RecordSig) : List PatchOp :=
  if t = str "CNAME" then
    if typesInFile.contains (str "A") || typesInFile.contains (str "AAAA") then []
    else
      (if cnameFinalTypeIncr sub existingTypes = str "CNAME" then
        (existingTypes.filter (fun ty => !decide (ty = str "CNAME"))).map
          (fun ty =>
            (⟨subdomainToFqdn zone sub, ty, DEFAULT_TTL, ChangeType.DELETE, []⟩ : PatchOp))
      else []) ++
        [⟨subdomainToFqdn zone sub, cnameFinalTypeIncr sub existingTypes, DEFAULT_TTL,
          ChangeType.REPLACE, (cnameTrim records).map toPRecIncr⟩]
  else
    [⟨subdomainToFqdn zone sub, t, DEFAULT_TTL, ChangeType.REPLACE, records.map toPRecIncr⟩]

/-- The payload of one changed file: the provider-held types of the
subdomain, the authored types in file order (JS `Map` grouping, first
insertion wins), and the per-type entries flattened in that order. -/
def opsForFile (zone : Str) (P : List RRSet) (sub : Str) (sigs : List RecordSig) :
    List PatchOp :=
  (firstDedup (sigs.map (fun r => r.rtype))).flatMap (fun t =>
    opsForFileType zone sub (firstDedup ((getSubdomainRRSets zone P sub).map (fun rr => rr.rtype)))
      (firstDedup (sigs.map (fun r => r.rtype))) t
      (sigs.filter (fun r => decide (r.rtype = t))))

/-- The add/modify loop of `processChanges` (step 2): each file in order,
skipping subdomains already processed; files that load no signature are
skipped without marking the subdomain processed. -/
def addModOps (zone : Str) (P : List RRSet) :
    List (Str × List RecordDef) → List Str → List PatchOp
  | [], _ => []
  | f :: fs, processed =>
    if f.1 ∈ processed then addModOps zone P fs processed
    else if (f.2.flatMap (loadDefSigs f.1)).isEmpty then addModOps zone P fs processed
    else
      opsForFile zone P f.1 (f.2.flatMap (loadDefSigs f.1)) ++
        addModOps zone P fs (f.1 :: processed)

/-- The deletion loop of `processChanges` (step 1): for each deleted
subdomain (first occurrence only) a DELETE per currently held RRSet, under
the provider-reported name and type. -/
def deletionOps (zone : Str) (P : List RRSet) (deleted : List Str) : List PatchOp :=
  (firstDedup deleted).flatMap (fun sub =>
    (getSubdomainRRSets zone P sub).map
      (fun rr => (⟨rr.name, rr.rtype, DEFAULT_TTL, ChangeType.DELETE, []⟩ : PatchOp)))

/-- `patchPayload` of the incremental script: the deletion entries, then the
add/modify entries (deleted subdomains are already marked processed). -/
def incrPayload (zone : Str) (deleted : List Str) (files : List (Str × List RecordDef))
    (P : List RRSet) : List PatchOp :=
  deletionOps zone P deleted ++ addModOps zone P files (firstDedup deleted)

/-- `finalPayload` of the incremental script: drop every entry that is a
DELETE and whose `normName` matches a protected entry. -/
def finalIncr (zone : Str) (deleted : List Str) (files : List (Str × List RecordDef))
    (P : List RRSet) : List PatchOp :=
  (incrPayload zone deleted files P).filter (fun item =>
    !(PROTECTED_DOMAINS_INCR.any (fun p => decide (normName p = normName item.name)) &&
      decide (item.changetype = ChangeType.DELETE)))

/-- The serial transition of the incremental script: when
`String(currentSerial)` has exactly ten characters and starts with the
rendered `todayPrefix`, increment; otherwise `parseInt` of the rendered
`todayPrefix` followed by `"01"`. -/
def nextSerial (cur today : Nat) : Nat :=
  if (natChars cur).length = 10 ∧ prefixOf (natChars today) (natChars cur) = true then
    cur + 1
  else ((jsParseInt (natChars today ++ str "01")).getD 0).toNat

/-- The SOA REPLACE pushed onto a surviving incremental payload: name
`PDNS_ZONE + "."`, TTL 3600, and the SOA content string carrying the new
serial and `SOA_MIN_TTL`. -/
def soaOp (zone : Str) (cur today : Nat) : PatchOp :=
  ⟨zone ++ str ".", str "SOA", 3600, ChangeType.REPLACE,
    [⟨str "ns1.is-an.ai. hostmaster.is-an.ai. " ++ natChars (nextSerial cur today) ++
        str " 10800 3600 604800 " ++ natChars SOA_MIN_TTL, none⟩]⟩

/-- `processChanges` of the incremental script: empty payloads (before or
after protected filtering) are submitted as nothing; a surviving payload is
submitted with the SOA serial REPLACE appended. -/
def processChanges (zone : Str) (deleted : List Str) (files : List (Str × List RecordDef))
    (P : List RRSet) (cur today : Nat) : List PatchOp :=
  if (incrPayload zone deleted files P).isEmpty then []
  else if (finalIncr zone deleted files P).isEmpty then []
  else finalIncr zone deleted files P ++ [soaOp zone cur today]

/-! ### The Cloudflare delete path -/

/-- The outcome of the Cloudflare `dns.records.delete` call: success, or an
error carrying an optional HTTP status and an optional message. -/
inductive CfDeleteResult where
  | ok
  | err (status : Option Nat) (message : Option Str)
deriving DecidableEq, Repr

/-- `deleteDNSRecord` of sync-cloudflare-dns.ts: `true` under DRY_RUN or on
success; on an error, `true` exactly when the status is 404 or the message
contains "Record not found", else `false`. -/
def deleteDNSRecord (dryRun : Bool) (res : CfDeleteResult) : Bool :=
  if dryRun then true
  else
    match res with
    | CfDeleteResult.ok => true
    | CfDeleteResult.err status message =>
      if decide (status = some 404) ||
          (match message with
           | some m => containsSub (str "Record not found") m
           | none => false) then true
      else false

/-- The per-record accounting of the Cloudflare delete loop: a success
outside DRY_RUN increments the success count, a failure increments the
failure count. -/
def deleteStep (dryRun : Bool) (counts : Nat × Nat) (res : CfDeleteResult) : Nat × Nat :=
  if deleteDNSRecord dryRun res && !dryRun then (counts.1 + 1, counts.2)
  else if !(deleteDNSRecord dryRun res) then (counts.1, counts.2 + 1)
  else counts
/-! ### Well-formed names -/

theorem char_toNat_ofNat {n : Nat} (h : n < 55296) : (Char.ofNat n).toNat = n := by
  unfold Char.ofNat
  rw [dif_pos (Or.inl h : Nat.isValidChar n)]
  simp [Char.ofNatAux, Char.toNat, UInt32.toNat]

theorem char_toLower_toLower (c : Char) : c.toLower.toLower = c.toLower := by
  unfold Char.toLower
  by_cases h : c.toNat ≥ 65 ∧ c.toNat ≤ 90
  · rw [if_pos h]
    have hv : (Char.ofNat (c.toNat + 32)).toNat = c.toNat + 32 := char_toNat_ofNat (by omega)
    rw [if_neg (by rw [hv]; omega)]
  · rw [if_neg h, if_neg h]

theorem toLowerStr_idem (s : Str) : toLowerStr (toLowerStr s) = toLowerStr s := by
  simp only [toLowerStr, List.map_map]
  exact List.map_congr_left (fun c _ => char_toLower_toLower c)

theorem suffixOf_dot_toLower {s : Str} (h : suffixOf (str ".") s = true) :
    suffixOf (str ".") (toLowerStr s) = true := by
  simp only [suffixOf, str, toLowerStr] at h ⊢
  have hmr : (List.map Char.toLower s).reverse = List.map Char.toLower s.reverse := by
    simp [List.map_reverse]
  rw [hmr]
  cases hr : s.reverse with
  | nil => rw [hr] at h; simp [prefixOf] at h
  | cons r t =>
    rw [hr] at h
    simp only [prefixOf, Bool.and_eq_true, decide_eq_true_eq] at h
    simp only [List.map_cons, prefixOf, Bool.and_eq_true, decide_eq_true_eq]
    refine ⟨?_, trivial⟩
    rw [← h.1]
    rfl

theorem subdomainToFqdn_suffix_dot (z d : Str) :
    suffixOf (str ".") (subdomainToFqdn z d) = true := by
  simp only [subdomainToFqdn]
  apply suffixOf_dot_toLower
  by_cases h : suffixOf (str ".")
      (if dropTrailingDots (d.dropWhile (fun c => c = '.')) = [] ∨
          dropTrailingDots (d.dropWhile (fun c => c = '.')) = str "@" ∨
          trimL (dropTrailingDots (d.dropWhile (fun c => c = '.'))) = [] then z
        else dropTrailingDots (d.dropWhile (fun c => c = '.')) ++ '.' :: z) = true
  · rw [if_pos h]
    exact h
  · rw [if_neg h]
    exact suffixOf_append_dot _

theorem subdomainToFqdn_lower (z d : Str) :
    toLowerStr (subdomainToFqdn z d) = subdomainToFqdn z d := by
  simp only [subdomainToFqdn]
  exact toLowerStr_idem _

/-- A subdomain is well-formed for a zone when converting it to an FQDN and
back recovers it. -/
def WFSub (z d : Str) : Prop := fqdnToSubdomain z (subdomainToFqdn z d) = d

/-- A provider-side name is well-formed for a zone when converting it to a
subdomain and back recovers it. -/
def WFName (z n : Str) : Prop := subdomainToFqdn z (fqdnToSubdomain z n) = n

instance (z d : Str) : Decidable (WFSub z d) := by unfold WFSub; infer_instance

instance (z n : Str) : Decidable (WFName z n) := by unfold WFName; infer_instance

theorem WFName_toSub {z n : Str} (h : WFName z n) : WFSub z (fqdnToSubdomain z n) := by
  unfold WFSub
  rw [h]

theorem subdomainToFqdn_at {z : Str} (hzl : toLowerStr z = z)
    (hzd : suffixOf (str ".") z = true) : subdomainToFqdn z (str "@") = z := by
  have h1 : (str "@").dropWhile (fun c => c = '.') = str "@" := by decide
  have h2 : dropTrailingDots (str "@") = str "@" := by decide
  simp only [subdomainToFqdn, h1, h2]
  rw [if_pos (Or.inr (Or.inl trivial)), if_pos hzd, hzl]

/-- On a lower-case zone, the apex FQDN is the zone with the appended dot, or
the zone itself when it already carries one. -/
theorem subdomainToFqdn_at_or {z : Str} (hzl : toLowerStr z = z) :
    subdomainToFqdn z (str "@") = z ++ str "." ∨ subdomainToFqdn z (str "@") = z := by
  have h1 : (str "@").dropWhile (fun c => c = '.') = str "@" := by decide
  have h2 : dropTrailingDots (str "@") = str "@" := by decide
  simp only [subdomainToFqdn, h1, h2]
  rw [if_pos (Or.inr (Or.inl trivial))]
  by_cases hd : suffixOf (str ".") z = true
  · rw [if_pos hd, hzl]
    exact Or.inr rfl
  · rw [if_neg hd]
    refine Or.inl ?_
    show toLowerStr (z ++ str ".") = z ++ str "."
    simp only [toLowerStr, List.map_append]
    rw [show List.map Char.toLower z = z from hzl]
    rfl

theorem subdomainToFqdn_inj {z d1 d2 : Str} (h1 : WFSub z d1) (h2 : WFSub z d2)
    (h : subdomainToFqdn z d1 = subdomainToFqdn z d2) : d1 = d2 := by
  have hc := congrArg (fqdnToSubdomain z) h
  rw [show fqdnToSubdomain z (subdomainToFqdn z d1) = d1 from h1,
    show fqdnToSubdomain z (subdomainToFqdn z d2) = d2 from h2] at hc
  exact hc

/-! ### Structural lemmas about the loaders -/

theorem loadDefSigs_subdomain {d : Str} {rd : RecordDef} {s : RecordSig}
    (h : s ∈ loadDefSigs d rd) : s.subdomain = d := by
  rcases rd with ⟨t0, v⟩
  cases v with
  | strv v0 =>
    simp only [loadDefSigs] at h
    split at h
    · cases h
    · rw [List.mem_singleton] at h
      subst h
      rfl
  | mxv p x =>
    simp only [loadDefSigs] at h
    split at h
    · rw [List.mem_singleton] at h
      subst h
      rfl
    · cases h

theorem loadDefSigs_rtype {d : Str} {rd : RecordDef} {s : RecordSig}
    (h : s ∈ loadDefSigs d rd) : s.rtype = toUpperStr rd.rtype := by
  rcases rd with ⟨t0, v⟩
  cases v with
  | strv v0 =>
    simp only [loadDefSigs] at h
    split at h
    · cases h
    · rw [List.mem_singleton] at h
      subst h
      rfl
  | mxv p x =>
    simp only [loadDefSigs] at h
    split at h
    · rw [List.mem_singleton] at h
      subst h
      rfl
    · cases h

/-- The loaders store the authored string value verbatim as the signature
content; no normalization is applied at load time. -/
theorem loadDefSigs_raw {d : Str} {rd : RecordDef} {s : RecordSig}
    (h : s ∈ loadDefSigs d rd) :
    (∀ v : Str, rd.value = RecordValue.strv v → s.content = v) ∧
    (∀ (p : Nat) (x : Str), rd.value = RecordValue.mxv p x →
      s.content = x ∧ s.priority = some p) := by
  rcases rd with ⟨t0, v⟩
  cases v with
  | strv v0 =>
    simp only [loadDefSigs] at h
    split at h
    · cases h
    · rw [List.mem_singleton] at h
      subst h
      refine ⟨?_, ?_⟩
      · intro v hv
        cases hv
        rfl
      · intro p x hv
        cases hv
  | mxv p0 x0 =>
    simp only [loadDefSigs] at h
    split at h
    · rw [List.mem_singleton] at h
      subst h
      refine ⟨?_, ?_⟩
      · intro v hv
        cases hv
      · intro p x hv
        cases hv
        exact ⟨rfl, rfl⟩
    · cases h

theorem mem_flatSigs {m : List (Str × List RecordSig)} {s : RecordSig} :
    s ∈ flatSigs m ↔ ∃ e ∈ m, s ∈ e.2 := by
  simp [flatSigs, List.mem_flatMap]

theorem mem_loadRepo {repo : List (Str × List RecordDef)} {e : Str × List RecordSig} :
    e ∈ loadRepo repo ↔ ∃ e0 ∈ repo, e = (e0.1, e0.2.flatMap (loadDefSigs e0.1)) := by
  simp only [loadRepo, List.mem_map]
  constructor
  · rintro ⟨e0, he0, rfl⟩; exact ⟨e0, he0, rfl⟩
  · rintro ⟨e0, he0, rfl⟩; exact ⟨e0, he0, rfl⟩

theorem loadRepo_entry_subdomain {repo : List (Str × List RecordDef)}
    {e : Str × List RecordSig} (he : e ∈ loadRepo repo) {s : RecordSig} (hs : s ∈ e.2) :
    s.subdomain = e.1 := by
  obtain ⟨e0, -, rfl⟩ := mem_loadRepo.mp he
  simp only [List.mem_flatMap] at hs
  obtain ⟨rd, -, hrd⟩ := hs
  exact loadDefSigs_subdomain hrd

theorem flatSigs_loadRepo_subdomain {repo : List (Str × List RecordDef)} {s : RecordSig}
    (h : s ∈ flatSigs (loadRepo repo)) : s.subdomain ∈ repo.map Prod.fst := by
  obtain ⟨e, he, hse⟩ := mem_flatSigs.mp h
  obtain ⟨e0, he0, rfl⟩ := mem_loadRepo.mp he
  rw [loadRepo_entry_subdomain he hse]
  simp only [List.mem_map]
  exact ⟨e0, he0, rfl⟩

theorem providerSigs_subdomain {z : Str} {P : List RRSet} {s : RecordSig}
    (h : s ∈ providerSigs z P) : ∃ r ∈ P, s.subdomain = fqdnToSubdomain z r.name := by
  simp only [providerSigs, List.mem_flatMap, List.mem_filter, List.mem_map] at h
  obtain ⟨r, ⟨hr, -⟩, rec, -, rfl⟩ := h
  exact ⟨r, hr, rfl⟩

theorem lookupSubs_subset_flatSigs {m : List (Str × List RecordSig)} {d : Str}
    {r : RecordSig} (h : r ∈ lookupSubs m d) : r ∈ flatSigs m := by
  simp only [lookupSubs] at h
  cases hf : m.find? (fun e => decide (e.1 = d)) with
  | none => rw [hf] at h; simp at h
  | some e =>
    rw [hf] at h
    exact mem_flatSigs.mpr ⟨e, List.mem_of_find?_eq_some hf, h⟩

theorem lookupSubs_loadRepo_subdomain {repo : List (Str × List RecordDef)} {d : Str}
    {r : RecordSig} (h : r ∈ lookupSubs (loadRepo repo) d) : r.subdomain = d := by
  simp only [lookupSubs] at h
  cases hf : (loadRepo repo).find? (fun e => decide (e.1 = d)) with
  | none => rw [hf] at h; simp at h
  | some e =>
    rw [hf] at h
    have he := List.mem_of_find?_eq_some hf
    have hkey : e.1 = d := by
      have hp := List.find?_some hf
      simpa using hp
    rw [loadRepo_entry_subdomain he h, hkey]

theorem mem_lookupSubs_of_keyed {m : List (Str × List RecordSig)}
    (hsub : ∀ e ∈ m, ∀ x ∈ e.2, x.subdomain = e.1)
    (hnd : (m.map Prod.fst).Nodup) {s : RecordSig} (h : s ∈ flatSigs m) :
    s ∈ lookupSubs m s.subdomain := by
  induction m with
  | nil => simp [flatSigs] at h
  | cons e m ih =>
    rw [List.map_cons, List.nodup_cons] at hnd
    rw [mem_flatSigs] at h
    simp only [List.mem_cons] at h
    by_cases hd : e.1 = s.subdomain
    · have hfind : List.find? (fun x => decide (x.1 = s.subdomain)) (e :: m) = some e :=
        List.find?_cons_of_pos _ (by simpa using hd)
      simp only [lookupSubs]
      rw [hfind]
      obtain ⟨e1, he1, hse1⟩ := h
      rcases he1 with rfl | he1
      · exact hse1
      · exfalso
        have hs1 : s.subdomain = e1.1 := hsub e1 (List.mem_cons_of_mem _ he1) s hse1
        exact hnd.1 (List.mem_map.mpr ⟨e1, he1, by rw [hd]; exact hs1.symm⟩)
    · have hfind : List.find? (fun x => decide (x.1 = s.subdomain)) (e :: m) =
          List.find? (fun x => decide (x.1 = s.subdomain)) m :=
        List.find?_cons_of_neg _ (by simpa using hd)
      simp only [lookupSubs]
      rw [hfind]
      obtain ⟨e1, he1, hse1⟩ := h
      rcases he1 with rfl | he1
      · exact absurd (hsub e1 (List.mem_cons_self _ _) s hse1).symm hd
      · exact ih (fun e2 he2 => hsub e2 (List.mem_cons_of_mem _ he2)) hnd.2
          (mem_flatSigs.mpr ⟨e1, he1, hse1⟩)

theorem loadRepo_keys (repo : List (Str × List RecordDef)) :
    (loadRepo repo).map Prod.fst = repo.map Prod.fst := by
  simp only [loadRepo, List.map_map]
  rfl

theorem flatSigs_mem_lookupSubs {repo : List (Str × List RecordDef)} {s : RecordSig}
    (hnd : (repo.map Prod.fst).Nodup) (h : s ∈ flatSigs (loadRepo repo)) :
    s ∈ lookupSubs (loadRepo repo) s.subdomain := by
  apply mem_lookupSubs_of_keyed
  · intro e he x hx
    exact loadRepo_entry_subdomain he hx
  · rw [loadRepo_keys]
    exact hnd
  · exact h

theorem length_le_one_mem {α : Type} {l : List α} (h : l.length ≤ 1) {a : α}
    (ha : a ∈ l) : l = [a] := by
  cases l with
  | nil => cases ha
  | cons x t =>
    cases t with
    | nil =>
      simp only [List.mem_singleton] at ha
      rw [ha]
    | cons y u => simp at h

/-! ### The diff engine -/

theorem diffSigs_mem_create (D A : List RecordSig) (s : RecordSig) :
    s ∈ (diffSigs D A).1 ↔
      s ∈ D ∧ createRecordSignature s ∉ A.map createRecordSignature := by
  simp [diffSigs, List.mem_filter]

theorem diffSigs_mem_delete (D A : List RecordSig) (s : RecordSig) :
    s ∈ (diffSigs D A).2 ↔
      s ∈ A ∧ createRecordSignature s ∉ D.map createRecordSignature := by
  simp [diffSigs, List.mem_filter]

theorem diffSigs_create_keys (D A : List RecordSig) :
    ((diffSigs D A).1.map createRecordSignature).toFinset =
      (D.map createRecordSignature).toFinset \ (A.map createRecordSignature).toFinset := by
  ext k
  simp only [List.mem_toFinset, List.mem_map, Finset.mem_sdiff, diffSigs,
    List.mem_filter, decide_eq_true_eq]
  constructor
  · rintro ⟨s, ⟨hsD, hk⟩, rfl⟩
    refine ⟨⟨s, hsD, rfl⟩, ?_⟩
    intro hc
    exact hk (by simpa using hc)
  · rintro ⟨⟨s, hsD, rfl⟩, hk⟩
    exact ⟨s, ⟨hsD, by simpa using hk⟩, rfl⟩

theorem diffSigs_delete_keys (D A : List RecordSig) :
    ((diffSigs D A).2.map createRecordSignature).toFinset =
      (A.map createRecordSignature).toFinset \ (D.map createRecordSignature).toFinset := by
  ext k
  simp only [List.mem_toFinset, List.mem_map, Finset.mem_sdiff, diffSigs,
    List.mem_filter, decide_eq_true_eq]
  constructor
  · rintro ⟨s, ⟨hsA, hk⟩, rfl⟩
    refine ⟨⟨s, hsA, rfl⟩, ?_⟩
    intro hc
    exact hk (by simpa using hc)
  · rintro ⟨⟨s, hsA, rfl⟩, hk⟩
    exact ⟨s, ⟨hsA, by simpa using hk⟩, rfl⟩

theorem diffSigs_card (D A : List RecordSig) :
    ((diffSigs D A).1.map createRecordSignature).toFinset.card +
      ((diffSigs D A).2.map createRecordSignature).toFinset.card +
      ((D.map createRecordSignature).toFinset ∩
        (A.map createRecordSignature).toFinset).card =
    ((D.map createRecordSignature).toFinset ∪
      (A.map createRecordSignature).toFinset).card := by
  rw [diffSigs_create_keys, diffSigs_delete_keys]
  have h1 := Finset.card_sdiff_add_card_inter (D.map createRecordSignature).toFinset
    (A.map createRecordSignature).toFinset
  have h2 := Finset.card_sdiff_add_card_inter (A.map createRecordSignature).toFinset
    (D.map createRecordSignature).toFinset
  have h3 := Finset.card_inter_add_card_union (D.map createRecordSignature).toFinset
    (A.map createRecordSignature).toFinset
  have hic : ((A.map createRecordSignature).toFinset ∩
      (D.map createRecordSignature).toFinset).card =
      ((D.map createRecordSignature).toFinset ∩
        (A.map createRecordSignature).toFinset).card := by
    rw [Finset.inter_comm]
  omega

/-! ### Key injectivity -/

theorem natChars_inj {p q : Nat} (h : natChars p = natChars q) : p = q := by
  have hv := congrArg digitsVal h
  rwa [digitsVal_natChars, digitsVal_natChars] at hv

theorem append_colon_inj {a b x y : Str} (ha : ':' ∉ a) (hb : ':' ∉ b)
    (h : a ++ ':' :: x = b ++ ':' :: y) : a = b ∧ x = y := by
  induction a generalizing b with
  | nil =>
    cases b with
    | nil => simpa using h
    | cons c b' =>
      simp only [List.nil_append, List.cons_append, List.cons.injEq] at h
      exact absurd (by simp [← h.1]) hb
  | cons c a' ih =>
    cases b with
    | nil =>
      simp only [List.cons_append, List.nil_append, List.cons.injEq] at h
      exact absurd (by simp [h.1]) ha
    | cons c' b' =>
      simp only [List.cons_append, List.cons.injEq] at h
      obtain ⟨rfl, h2⟩ := h
      have ha' : ':' ∉ a' := fun hx => ha (List.mem_cons_of_mem _ hx)
      have hb' : ':' ∉ b' := fun hx => hb (List.mem_cons_of_mem _ hx)
      obtain ⟨rfl, hxy⟩ := ih ha' hb' h2
      exact ⟨rfl, hxy⟩

theorem colon_not_mem_natChars (p : Nat) : ':' ∉ natChars p := by
  intro hmem
  have := natChars_digits p ':' hmem
  simp [isDigitC] at this

/-- On signatures whose fields are colon-free, the signature key is
injective. -/
theorem createRecordSignature_inj {r1 r2 : RecordSig}
    (h1s : ':' ∉ r1.subdomain) (h1t : ':' ∉ r1.rtype) (h1c : ':' ∉ r1.content)
    (h2s : ':' ∉ r2.subdomain) (h2t : ':' ∉ r2.rtype) (h2c : ':' ∉ r2.content)
    (h : createRecordSignature r1 = createRecordSignature r2) : r1 = r2 := by
  rcases r1 with ⟨s1, t1, c1, p1⟩
  rcases r2 with ⟨s2, t2, c2, p2⟩
  simp only at h1s h1t h1c h2s h2t h2c
  cases p1 with
  | none =>
    cases p2 with
    | none =>
      simp only [createRecordSignature, List.append_assoc, List.cons_append] at h
      obtain ⟨rfl, h2⟩ := append_colon_inj h1s h2s h
      obtain ⟨rfl, rfl⟩ := append_colon_inj h1t h2t h2
      rfl
    | some q =>
      simp only [createRecordSignature, List.append_assoc, List.cons_append] at h
      obtain ⟨rfl, h2⟩ := append_colon_inj h1s h2s h
      obtain ⟨rfl, h3⟩ := append_colon_inj h1t h2t h2
      exact absurd (by rw [h3]; simp) h1c
  | some p =>
    cases p2 with
    | none =>
      simp only [createRecordSignature, List.append_assoc, List.cons_append] at h
      obtain ⟨rfl, h2⟩ := append_colon_inj h1s h2s h
      obtain ⟨rfl, h3⟩ := append_colon_inj h1t h2t h2
      exact absurd (by rw [← h3]; simp) h2c
    | some q =>
      simp only [createRecordSignature, List.append_assoc, List.cons_append] at h
      obtain ⟨rfl, h2⟩ := append_colon_inj h1s h2s h
      obtain ⟨rfl, h3⟩ := append_colon_inj h1t h2t h2
      obtain ⟨rfl, h4⟩ := append_colon_inj h1c h2c h3
      rw [natChars_inj h4]
/-! ### Structural lemmas about the full-zone pipeline -/

theorem firstDedupAux_mem {α : Type} [DecidableEq α] :
    ∀ (l seen : List α) (x : α), x ∈ firstDedupAux l seen ↔ x ∈ l ∧ x ∉ seen := by
  intro l
  induction l with
  | nil =>
    intro seen x
    simp [firstDedupAux]
  | cons y ys ih =>
    intro seen x
    simp only [firstDedupAux]
    by_cases hy : y ∈ seen
    · rw [if_pos hy, ih]
      constructor
      · rintro ⟨h1, h2⟩
        exact ⟨List.mem_cons_of_mem _ h1, h2⟩
      · rintro ⟨h1, h2⟩
        rcases List.mem_cons.mp h1 with rfl | h1
        · exact absurd hy h2
        · exact ⟨h1, h2⟩
    · rw [if_neg hy]
      simp only [List.mem_cons, ih]
      constructor
      · rintro (rfl | ⟨h1, h2⟩)
        · exact ⟨Or.inl rfl, hy⟩
        · exact ⟨Or.inr h1, fun hx => h2 (Or.inr hx)⟩
      · rintro ⟨h1, h2⟩
        rcases h1 with rfl | h1
        · exact Or.inl rfl
        · by_cases hxy : x = y
          · exact Or.inl hxy
          · exact Or.inr ⟨h1, fun hx => hx.elim hxy h2⟩

theorem firstDedup_mem {α : Type} [DecidableEq α] (l : List α) (x : α) :
    x ∈ firstDedup l ↔ x ∈ l := by
  rw [firstDedup, firstDedupAux_mem]
  simp

theorem mem_runDiff_delete {zone : Str} {repo : List (Str × List RecordDef)}
    {P : List RRSet} {s : RecordSig} (h : s ∈ (runDiff zone repo P).2) :
    s ∈ providerSigs zone P ∧ s.subdomain ∉ PROTECTED_SUBDOMAINS := by
  simp only [runDiff] at h
  rw [List.mem_filter] at h
  refine ⟨((diffSigs_mem_delete _ _ _).mp h.1).1, ?_⟩
  have h2 := h.2
  simpa using h2

theorem changedRrsetKeys_intro_repo {zone : Str} {repo : List (Str × List RecordDef)}
    {P : List RRSet} {s : RecordSig} (h : s ∈ flatSigs (loadRepo repo)) :
    (s.subdomain, s.rtype) ∈ changedRrsetKeys zone repo P := by
  rw [changedRrsetKeys, firstDedup_mem]
  exact List.mem_append_left _ (List.mem_map.mpr ⟨s, h, rfl⟩)

theorem changedRrsetKeys_src {zone : Str} {repo : List (Str × List RecordDef)}
    {P : List RRSet} {k : Str × Str} (h : k ∈ changedRrsetKeys zone repo P) :
    (∃ s ∈ flatSigs (loadRepo repo), k = (s.subdomain, s.rtype)) ∨
    (∃ s ∈ (runDiff zone repo P).2, k = (s.subdomain, s.rtype)) := by
  rw [changedRrsetKeys, firstDedup_mem, List.mem_append] at h
  rcases h with h | h
  · left
    obtain ⟨s, hs, hk⟩ := List.mem_map.mp h
    exact ⟨s, hs, hk.symm⟩
  · right
    obtain ⟨s, hs, hk⟩ := List.mem_map.mp h
    exact ⟨s, hs, hk.symm⟩

theorem changedRrsetKeys_wfsub {zone : Str} {repo : List (Str × List RecordDef)}
    {P : List RRSet} {k : Str × Str}
    (HR : ∀ d0 ∈ repo.map Prod.fst, WFSub zone d0)
    (HP : ∀ r ∈ P, WFName zone r.name)
    (hk : k ∈ changedRrsetKeys zone repo P) : WFSub zone k.1 := by
  rcases changedRrsetKeys_src hk with ⟨s, hsf, rfl⟩ | ⟨s, hsd, rfl⟩
  · exact HR s.subdomain (flatSigs_loadRepo_subdomain hsf)
  · obtain ⟨r, hr, hsub⟩ := providerSigs_subdomain (mem_runDiff_delete hsd).1
    show WFSub zone s.subdomain
    rw [hsub]
    exact WFName_toSub (HP r hr)

theorem opsForPair_mem_shape {zone : Str} {m : List (Str × List RecordSig)} {d t : Str}
    {op : PatchOp} (h : op ∈ opsForPair zone m d t) :
    ((lookupSubs m d).filter (fun r => decide (r.rtype = t)) = [] ∧
      op = ⟨subdomainToFqdn zone d, t, DEFAULT_TTL, ChangeType.DELETE, []⟩) ∨
    ((lookupSubs m d).filter (fun r => decide (r.rtype = t)) ≠ [] ∧ t ≠ str "CNAME" ∧
      op = ⟨subdomainToFqdn zone d, t, DEFAULT_TTL, ChangeType.REPLACE,
        ((lookupSubs m d).filter (fun r => decide (r.rtype = t))).map toPRec⟩) ∨
    ((lookupSubs m d).filter (fun r => decide (r.rtype = t)) ≠ [] ∧ t = str "CNAME" ∧
      (lookupSubs m d).any
        (fun r => decide (r.rtype = str "A") || decide (r.rtype = str "AAAA")) = false ∧
      op = ⟨subdomainToFqdn zone d, cnameFinalType zone m d, DEFAULT_TTL, ChangeType.REPLACE,
        (cnameTrim ((lookupSubs m d).filter (fun r => decide (r.rtype = t)))).map toPRec⟩) := by
  simp only [opsForPair] at h
  by_cases hE : ((lookupSubs m d).filter (fun r => decide (r.rtype = t))).isEmpty = true
  · rw [if_pos hE] at h
    left
    exact ⟨List.isEmpty_iff.mp hE, List.mem_singleton.mp h⟩
  · rw [if_neg hE] at h
    have hne : (lookupSubs m d).filter (fun r => decide (r.rtype = t)) ≠ [] := by
      intro hnil
      exact hE (by rw [hnil]; rfl)
    by_cases hc : t = str "CNAME"
    · rw [if_pos hc] at h
      by_cases hA : (lookupSubs m d).any
          (fun r => decide (r.rtype = str "A") || decide (r.rtype = str "AAAA")) = true
      · rw [if_pos hA] at h
        cases h
      · rw [if_neg hA] at h
        right; right
        have hA' : (lookupSubs m d).any
            (fun r => decide (r.rtype = str "A") || decide (r.rtype = str "AAAA")) = false := by
          simpa using hA
        exact ⟨hne, hc, hA', List.mem_singleton.mp h⟩
    · rw [if_neg hc] at h
      right; left
      exact ⟨hne, hc, List.mem_singleton.mp h⟩

theorem opsForPair_name {zone : Str} {m : List (Str × List RecordSig)} {d t : Str}
    {op : PatchOp} (h : op ∈ opsForPair zone m d t) : op.name = subdomainToFqdn zone d := by
  rcases opsForPair_mem_shape h with ⟨-, rfl⟩ | ⟨-, -, rfl⟩ | ⟨-, -, -, rfl⟩ <;> rfl

theorem opsForPair_replace_mem {zone : Str} {m : List (Str × List RecordSig)} {d t : Str}
    (hne : (lookupSubs m d).filter (fun r => decide (r.rtype = t)) ≠ [])
    (hc : t ≠ str "CNAME") :
    (⟨subdomainToFqdn zone d, t, DEFAULT_TTL, ChangeType.REPLACE,
      ((lookupSubs m d).filter (fun r => decide (r.rtype = t))).map toPRec⟩ : PatchOp) ∈
      opsForPair zone m d t := by
  simp only [opsForPair]
  rw [if_neg (fun hE => hne (List.isEmpty_iff.mp hE)), if_neg hc]
  exact List.mem_singleton.mpr rfl

theorem opsForPair_cname_mem {zone : Str} {m : List (Str × List RecordSig)} {d : Str}
    (hne : (lookupSubs m d).filter (fun r => decide (r.rtype = str "CNAME")) ≠ [])
    (hA : (lookupSubs m d).any
      (fun r => decide (r.rtype = str "A") || decide (r.rtype = str "AAAA")) = false) :
    (⟨subdomainToFqdn zone d, cnameFinalType zone m d, DEFAULT_TTL, ChangeType.REPLACE,
      (cnameTrim ((lookupSubs m d).filter
        (fun r => decide (r.rtype = str "CNAME")))).map toPRec⟩ : PatchOp) ∈
      opsForPair zone m d (str "CNAME") := by
  simp only [opsForPair]
  rw [if_neg (fun hE => hne (List.isEmpty_iff.mp hE)), if_pos trivial, if_neg (by simp [hA])]
  exact List.mem_singleton.mpr rfl

theorem mem_patchPayload {zone : Str} {repo : List (Str × List RecordDef)}
    {P : List RRSet} {op : PatchOp} :
    op ∈ patchPayload zone repo P ↔
      ∃ k ∈ changedRrsetKeys zone repo P, op ∈ opsForPair zone (loadRepo repo) k.1 k.2 := by
  simp [patchPayload, List.mem_flatMap]

theorem mem_sortedPayload {zone : Str} {repo : List (Str × List RecordDef)}
    {P : List RRSet} {op : PatchOp} :
    op ∈ sortedPayload zone repo P ↔ op ∈ patchPayload zone repo P := by
  simp only [sortedPayload, List.mem_append, List.mem_filter]
  constructor
  · rintro (⟨h, -⟩ | ⟨h, -⟩) <;> exact h
  · intro h
    cases hc : op.changetype with
    | DELETE => exact Or.inl ⟨h, by simp [hc]⟩
    | REPLACE => exact Or.inr ⟨h, by simp [hc]⟩

theorem mem_syncDNSRecords {zone : Str} {repo : List (Str × List RecordDef)}
    {P : List RRSet} {op : PatchOp} :
    op ∈ syncDNSRecords zone repo P ↔ op ∈ patchPayload zone repo P ∧
      ¬(op.name ∈ PROTECTED_DOMAINS ∧ op.changetype = ChangeType.DELETE) := by
  simp only [syncDNSRecords, List.mem_filter, mem_sortedPayload]
  constructor
  · rintro ⟨h1, h2⟩
    refine ⟨h1, ?_⟩
    rintro ⟨hn, hd⟩
    rw [Bool.not_eq_true', Bool.and_eq_false_iff] at h2
    rcases h2 with h2 | h2 <;> simp [hn, hd] at h2
  · rintro ⟨h1, h2⟩
    refine ⟨h1, ?_⟩
    rw [Bool.not_eq_true', Bool.and_eq_false_iff]
    by_cases hn : op.name ∈ PROTECTED_DOMAINS
    · by_cases hd : op.changetype = ChangeType.DELETE
      · exact absurd ⟨hn, hd⟩ h2
      · exact Or.inr (by simp [hd])
    · exact Or.inl (by simp [hn])

theorem replace_mem_syncDNSRecords {zone : Str} {repo : List (Str × List RecordDef)}
    {P : List RRSet} {k : Str × Str} {op : PatchOp}
    (hk : k ∈ changedRrsetKeys zone repo P)
    (hop : op ∈ opsForPair zone (loadRepo repo) k.1 k.2)
    (hrep : op.changetype = ChangeType.REPLACE) : op ∈ syncDNSRecords zone repo P := by
  rw [mem_syncDNSRecords]
  refine ⟨mem_patchPayload.mpr ⟨k, hk, hop⟩, ?_⟩
  rintro ⟨-, hd⟩
  rw [hrep] at hd
  cases hd

/-- The DELETE-first partition is pairwise ordered: no REPLACE ever precedes
a DELETE. -/
theorem sortedPayload_order (zone : Str) (repo : List (Str × List RecordDef))
    (P : List RRSet) :
    List.Pairwise (fun a b : PatchOp =>
      ¬(a.changetype = ChangeType.REPLACE ∧ b.changetype = ChangeType.DELETE))
      (sortedPayload zone repo P) := by
  rw [sortedPayload, List.pairwise_append]
  refine ⟨?_, ?_, ?_⟩
  · apply List.pairwise_of_forall_mem_list
    intro a ha b hb
    have had : a.changetype = ChangeType.DELETE := by
      have := (List.mem_filter.mp ha).2
      simpa using this
    rintro ⟨har, -⟩
    rw [had] at har
    cases har
  · apply List.pairwise_of_forall_mem_list
    intro a ha b hb
    have hbd : ¬b.changetype = ChangeType.DELETE := by
      have := (List.mem_filter.mp hb).2
      simpa using this
    rintro ⟨-, hbdel⟩
    exact hbd hbdel
  · intro a ha b hb
    have had : a.changetype = ChangeType.DELETE := by
      have := (List.mem_filter.mp ha).2
      simpa using this
    rintro ⟨har, -⟩
    rw [had] at har
    cases har

theorem syncDNSRecords_order (zone : Str) (repo : List (Str × List RecordDef))
    (P : List RRSet) :
    List.Pairwise (fun a b : PatchOp =>
      ¬(a.changetype = ChangeType.REPLACE ∧ b.changetype = ChangeType.DELETE))
      (syncDNSRecords zone repo P) :=
  List.Pairwise.filter _ (sortedPayload_order zone repo P)

/-- On a lower-case zone, the promoted type of the apex CNAME RRSet is
ALIAS. -/
theorem cnameFinalType_at {zone : Str} (m : List (Str × List RecordSig))
    (hzl : toLowerStr zone = zone) : cnameFinalType zone m (str "@") = str "ALIAS" := by
  simp only [cnameFinalType]
  rw [if_pos (subdomainToFqdn_at_or hzl)]

/-! ### Structural lemmas about the incremental pipeline -/

theorem processChanges_of_payload_empty {zone : Str} {deleted : List Str}
    {files : List (Str × List RecordDef)} {P : List RRSet} (cur today : Nat)
    (h : incrPayload zone deleted files P = []) :
    processChanges zone deleted files P cur today = [] := by
  simp [processChanges, h]

theorem processChanges_of_final_empty {zone : Str} {deleted : List Str}
    {files : List (Str × List RecordDef)} {P : List RRSet} (cur today : Nat)
    (h : finalIncr zone deleted files P = []) :
    processChanges zone deleted files P cur today = [] := by
  by_cases h0 : (incrPayload zone deleted files P).isEmpty = true
  · simp [processChanges, h0]
  · simp [processChanges, h0, h]

theorem processChanges_of_final_ne {zone : Str} {deleted : List Str}
    {files : List (Str × List RecordDef)} {P : List RRSet} (cur today : Nat)
    (h : finalIncr zone deleted files P ≠ []) :
    processChanges zone deleted files P cur today =
      finalIncr zone deleted files P ++ [soaOp zone cur today] := by
  have h0 : ¬(incrPayload zone deleted files P).isEmpty = true := by
    intro h0
    apply h
    have : incrPayload zone deleted files P = [] := List.isEmpty_iff.mp h0
    simp [finalIncr, this]
  have h1 : ¬(finalIncr zone deleted files P).isEmpty = true := by
    intro h1
    exact h (List.isEmpty_iff.mp h1)
  simp [processChanges, h0, h1]

theorem processChanges_delete_unprotected {zone : Str} {deleted : List Str}
    {files : List (Str × List RecordDef)} {P : List RRSet} {cur today : Nat} :
    ∀ op ∈ processChanges zone deleted files P cur today,
      op.changetype = ChangeType.DELETE →
      PROTECTED_DOMAINS_INCR.any (fun p => decide (normName p = normName op.name)) = false := by
  intro op hop hdel
  simp only [processChanges] at hop
  by_cases h1 : (incrPayload zone deleted files P).isEmpty = true
  · rw [if_pos h1] at hop
    cases hop
  · rw [if_neg h1] at hop
    by_cases h2 : (finalIncr zone deleted files P).isEmpty = true
    · rw [if_pos h2] at hop
      cases hop
    · rw [if_neg h2] at hop
      rcases List.mem_append.mp hop with hop | hop
      · have hp := (List.mem_filter.mp hop).2
        rw [Bool.not_eq_true', Bool.and_eq_false_iff] at hp
        rcases hp with hp | hp
        · exact hp
        · rw [decide_eq_false_iff_not] at hp
          exact absurd hdel hp
      · rw [List.mem_singleton] at hop
        subst hop
        cases hdel

/-! ### The serial transition -/

theorem jsParseInt_append01 (n : Nat) :
    jsParseInt (natChars n ++ str "01") = some ((n * 100 + 1 : Nat) : Int) := by
  obtain ⟨c, t, hct⟩ : ∃ c t, natChars n = c :: t := by
    cases h : natChars n with
    | nil => exact absurd h (natChars_ne_nil n)
    | cons c t => exact ⟨c, t, rfl⟩
  have hcd : isDigitC c = true := natChars_digits n c (by rw [hct]; exact List.mem_cons_self c t)
  have hall : ∀ x ∈ c :: (t ++ str "01"), isDigitC x = true := by
    intro x hx
    rcases List.mem_cons.mp hx with rfl | hx
    · exact hcd
    · rcases List.mem_append.mp hx with hx | hx
      · exact natChars_digits n x (by rw [hct]; exact List.mem_cons_of_mem c hx)
      · have hx2 : x = '0' ∨ x = '1' := by simpa [str] using hx
        rcases hx2 with rfl | rfl <;> decide
  have hval : digitsVal (natChars n ++ str "01") = n * 100 + 1 := by
    have h01 : (str "01" : Str) = ['0', '1'] := rfl
    rw [h01, show natChars n ++ ['0', '1'] = (natChars n ++ ['0']) ++ ['1'] by simp,
      digitsVal_append_singleton, digitsVal_append_singleton, digitsVal_natChars]
    have hz : ('0' : Char).toNat = 48 := rfl
    have ho : ('1' : Char).toNat = 49 := rfl
    rw [hz, ho]
    omega
  rw [show natChars n ++ str "01" = c :: (t ++ str "01") by rw [hct]; rfl]
  simp only [jsParseInt, dropWhile_eq_self_of_head (digit_not_ws hcd)]
  rw [if_neg (digit_ne_plus hcd), if_neg (digit_ne_minus hcd),
    parseDigits_all_digits (by simp) hall]
  have h3 : digitsVal (c :: (t ++ str "01")) = n * 100 + 1 := by
    rw [show c :: (t ++ str "01") = natChars n ++ str "01" by rw [hct]; rfl]
    exact hval
  simp [h3]

theorem nextSerial_same {cur today : Nat} (h1 : (natChars cur).length = 10)
    (h2 : prefixOf (natChars today) (natChars cur) = true) :
    nextSerial cur today = cur + 1 := by
  simp only [nextSerial]
  rw [if_pos ⟨h1, h2⟩]

theorem nextSerial_new {cur today : Nat}
    (h : ¬((natChars cur).length = 10 ∧ prefixOf (natChars today) (natChars cur) = true)) :
    nextSerial cur today = today * 100 + 1 := by
  simp only [nextSerial]
  rw [if_neg h, jsParseInt_append01]
  rfl
/-! ### Concrete configurations -/

/-- The zone, written as the dot-terminated FQDN. -/
def zone0 : Str := str "is-an.ai."

/-- The zone as the incremental script reads it from the environment
(no trailing dot). -/
def zoneI : Str := str "is-an.ai"

/-- A repository holding one A record at `test`. -/
def repoA : List (Str × List RecordDef) :=
  [(str "test", [⟨str "A", RecordValue.strv (str "1.2.3.4")⟩])]

/-- A provider state holding one stale unprotected A RRSet. -/
def provStale : List RRSet :=
  [⟨str "old.is-an.ai.", str "A", 300, [⟨str "9.9.9.9", none⟩]⟩]

/-- A repository holding one TXT record with unnormalized authored content. -/
def repoT : List (Str × List RecordDef) :=
  [(str "t", [⟨str "TXT", RecordValue.strv (str "v=spf1")⟩])]

/-- A repository defining a CNAME and a TXT record at the zone apex. -/
def repoApexCT : List (Str × List RecordDef) :=
  [(str "@", [⟨str "CNAME", RecordValue.strv (str "target.example.com")⟩,
              ⟨str "TXT", RecordValue.strv (str "hello")⟩])]

/-- A repository defining both a CNAME and an A record at `app`. -/
def repoConflict : List (Str × List RecordDef) :=
  [(str "app", [⟨str "CNAME", RecordValue.strv (str "x.example.com")⟩,
                ⟨str "A", RecordValue.strv (str "1.2.3.4")⟩])]

/-- A provider state holding a stale ALIAS RRSet at `app`. -/
def provAliasStale : List RRSet :=
  [⟨str "app.is-an.ai.", str "ALIAS", 300, [⟨str "old.example.com.", none⟩]⟩]

/-- One changed file authoring a single A record. -/
def files6 : List (Str × List RecordDef) :=
  [(str "x6", [⟨str "A", RecordValue.strv (str "5.6.7.8")⟩])]

/-- One changed file authoring a TXT record and then a CNAME record. -/
def files7 : List (Str × List RecordDef) :=
  [(str "app7", [⟨str "TXT", RecordValue.strv (str "x")⟩,
                 ⟨str "CNAME", RecordValue.strv (str "t.example.com")⟩])]

/-- A provider state holding CNAME and TXT RRSets at `app7`. -/
def prov7 : List RRSet :=
  [⟨str "app7.is-an.ai.", str "CNAME", 300, [⟨str "old.example.com.", none⟩]⟩,
   ⟨str "app7.is-an.ai.", str "TXT", 300, [⟨str "\"y\"", none⟩]⟩]

/-- A signature whose content contains the key separator. -/
def sigColon1 : RecordSig := ⟨str "a", str "A", str "c:1", none⟩

/-- A different signature rendering the same key. -/
def sigColon2 : RecordSig := ⟨str "a", str "A", str "c", some 1⟩

/-- A CNAME definition whose authored content has no trailing dot. -/
def cnameDef9 : RecordDef := ⟨str "CNAME", RecordValue.strv (str "x.example.com")⟩

/-! ### The claims -/

/-- Claim C1: in the full-zone script, every DELETE of the final batch
targets a name outside the protected FQDN list, and (when repository keys
are duplicate-free and provider names round-trip through the zone) a
subdomain outside the protected subdomain set — provider-held records of
protected subdomains are skipped by the diff and protected names survive the
final filter; in the incremental script, every submitted DELETE likewise
fails the normalized protected-name match. -/
theorem claim_C1 {zone : Str} {repo : List (Str × List RecordDef)} {P : List RRSet}
    (HK : (repo.map Prod.fst).Nodup)
    (HP : ∀ rr ∈ P, WFName zone rr.name) :
    (∀ op ∈ syncDNSRecords zone repo P, op.changetype = ChangeType.DELETE →
        op.name ∉ PROTECTED_DOMAINS ∧
        fqdnToSubdomain zone op.name ∉ PROTECTED_SUBDOMAINS) ∧
    (∀ (zone2 : Str) (deleted : List Str) (files : List (Str × List RecordDef))
        (P2 : List RRSet) (cur today : Nat),
      ∀ op ∈ processChanges zone2 deleted files P2 cur today,
        op.changetype = ChangeType.DELETE →
        PROTECTED_DOMAINS_INCR.any
          (fun p => decide (normName p = normName op.name)) = false) := by
  constructor
  · intro op hop hdel
    obtain ⟨hpp, hprot⟩ := mem_syncDNSRecords.mp hop
    refine ⟨fun hn => hprot ⟨hn, hdel⟩, ?_⟩
    obtain ⟨k, hk, hopk⟩ := mem_patchPayload.mp hpp
    obtain ⟨k1, k2⟩ := k
    rcases opsForPair_mem_shape hopk with ⟨hemp, rfl⟩ | ⟨-, -, rfl⟩ | ⟨-, -, -, rfl⟩
    · rcases changedRrsetKeys_src hk with ⟨s, hsf, hks⟩ | ⟨s, hsd, hks⟩
      · exfalso
        have hk1 : k1 = s.subdomain := congrArg Prod.fst hks
        have hk2 : k2 = s.rtype := congrArg Prod.snd hks
        have hmem : s ∈ (lookupSubs (loadRepo repo) k1).filter
            (fun r => decide (r.rtype = k2)) := by
          rw [hk1, hk2]
          exact List.mem_filter.mpr ⟨flatSigs_mem_lookupSubs HK hsf, by simp⟩
        rw [hemp] at hmem
        cases hmem
      · have hk1 : k1 = s.subdomain := congrArg Prod.fst hks
        have hsub := (mem_runDiff_delete hsd).2
        obtain ⟨r, hr, hsr⟩ := providerSigs_subdomain (mem_runDiff_delete hsd).1
        have hwf : WFSub zone k1 := by
          rw [hk1, hsr]
          exact WFName_toSub (HP r hr)
        show fqdnToSubdomain zone (subdomainToFqdn zone k1) ∉ PROTECTED_SUBDOMAINS
        rw [show fqdnToSubdomain zone (subdomainToFqdn zone k1) = k1 from hwf, hk1]
        exact hsub
    · cases hdel
    · cases hdel
  · intro zone2 deleted files P2 cur today
    exact processChanges_delete_unprotected

theorem claim_C1_witness :
    (∀ op ∈ syncDNSRecords zone0 repoA provStale, op.changetype = ChangeType.DELETE →
        op.name ∉ PROTECTED_DOMAINS ∧
        fqdnToSubdomain zone0 op.name ∉ PROTECTED_SUBDOMAINS) ∧
    (∀ (zone2 : Str) (deleted : List Str) (files : List (Str × List RecordDef))
        (P2 : List RRSet) (cur today : Nat),
      ∀ op ∈ processChanges zone2 deleted files P2 cur today,
        op.changetype = ChangeType.DELETE →
        PROTECTED_DOMAINS_INCR.any
          (fun p => decide (normName p = normName op.name)) = false) :=
  claim_C1 (by decide) (by decide)

/-- Claim C2 (amended): the full-zone run is never a no-op while the
repository desires records — every repository (subdomain, type) pair is
enqueued as changed on every run, so whatever the provider already holds
(in particular the exact state produced by applying the previous batch),
the batch re-emits a REPLACE for the pair and is nonempty. The original
idempotence claim fails, as claim_C2_counterexample shows on a converged
provider state. -/
theorem claim_C2 {zone : Str} {repo : List (Str × List RecordDef)} {P : List RRSet}
    {d t : Str}
    (hne : (lookupSubs (loadRepo repo) d).filter (fun r => decide (r.rtype = t)) ≠ [])
    (hnc : t = str "CNAME" → (lookupSubs (loadRepo repo) d).any
        (fun r => decide (r.rtype = str "A") || decide (r.rtype = str "AAAA")) = false) :
    (∃ op ∈ syncDNSRecords zone repo P,
        op.name = subdomainToFqdn zone d ∧ op.changetype = ChangeType.REPLACE) ∧
    syncDNSRecords zone repo P ≠ [] := by
  obtain ⟨s, hs⟩ := List.exists_mem_of_ne_nil _ hne
  have hsl : s ∈ lookupSubs (loadRepo repo) d := List.mem_of_mem_filter hs
  have hst : s.rtype = t := by simpa using List.of_mem_filter hs
  have hsd : s.subdomain = d := lookupSubs_loadRepo_subdomain hsl
  have hsf : s ∈ flatSigs (loadRepo repo) := lookupSubs_subset_flatSigs hsl
  have hpair : ((d, t) : Str × Str) ∈ changedRrsetKeys zone repo P := by
    rw [← hsd, ← hst]
    exact changedRrsetKeys_intro_repo hsf
  have hex : ∃ op ∈ opsForPair zone (loadRepo repo) d t,
      op.changetype = ChangeType.REPLACE := by
    by_cases hc : t = str "CNAME"
    · subst hc
      exact ⟨_, opsForPair_cname_mem hne (hnc rfl), rfl⟩
    · exact ⟨_, opsForPair_replace_mem hne hc, rfl⟩
  obtain ⟨op, hopk, hrep⟩ := hex
  have hmem : op ∈ syncDNSRecords zone repo P :=
    replace_mem_syncDNSRecords hpair hopk hrep
  exact ⟨⟨op, hmem, opsForPair_name hopk, hrep⟩, List.ne_nil_of_mem hmem⟩

theorem claim_C2_witness :
    (∃ op ∈ syncDNSRecords zone0 repoA (applyBatch [] (syncDNSRecords zone0 repoA [])),
        op.name = subdomainToFqdn zone0 (str "test") ∧
        op.changetype = ChangeType.REPLACE) ∧
    syncDNSRecords zone0 repoA (applyBatch [] (syncDNSRecords zone0 repoA [])) ≠ [] :=
  @claim_C2 zone0 repoA (applyBatch [] (syncDNSRecords zone0 repoA []))
    (str "test") (str "A") (by decide) (by decide)

theorem claim_C2_counterexample :
    syncDNSRecords zone0 repoT (applyBatch [] (syncDNSRecords zone0 repoT [])) ≠ [] ∧
    (∃ op ∈ syncDNSRecords zone0 repoT (applyBatch [] (syncDNSRecords zone0 repoT [])),
      op.changetype = ChangeType.REPLACE ∧ op.rtype = str "TXT") := by
  decide

/-- Claim C3: both full-zone diff engines compute the key-wise symmetric
difference — toCreate is exactly the desired signatures whose rendered key
is not held, toDelete exactly the held signatures whose rendered key is not
desired, and on key sets the cardinalities satisfy
toCreate + toDelete + intersection = union. -/
theorem claim_C3 (D A : List RecordSig) :
    (∀ s : RecordSig, s ∈ (diffSigs D A).1 ↔
      s ∈ D ∧ createRecordSignature s ∉ A.map createRecordSignature) ∧
    (∀ s : RecordSig, s ∈ (diffSigs D A).2 ↔
      s ∈ A ∧ createRecordSignature s ∉ D.map createRecordSignature) ∧
    ((diffSigs D A).1.map createRecordSignature).toFinset =
      (D.map createRecordSignature).toFinset \ (A.map createRecordSignature).toFinset ∧
    ((diffSigs D A).2.map createRecordSignature).toFinset =
      (A.map createRecordSignature).toFinset \ (D.map createRecordSignature).toFinset ∧
    ((diffSigs D A).1.map createRecordSignature).toFinset.card +
      ((diffSigs D A).2.map createRecordSignature).toFinset.card +
      ((D.map createRecordSignature).toFinset ∩
        (A.map createRecordSignature).toFinset).card =
      ((D.map createRecordSignature).toFinset ∪
        (A.map createRecordSignature).toFinset).card :=
  ⟨diffSigs_mem_create D A, diffSigs_mem_delete D A, diffSigs_create_keys D A,
    diffSigs_delete_keys D A, diffSigs_card D A⟩

/-- Claim C4 (amended): when the repository defines a CNAME at the zone apex
(and no apex A/AAAA conflict), every operation of the final full-zone batch
targeting the apex name is a REPLACE that never carries a literal CNAME
type, and the desired apex CNAME RRSet itself is emitted as an ALIAS-typed
REPLACE. The original claim that every apex operation carries type ALIAS
fails: coexisting apex records keep their own types, as
claim_C4_counterexample shows with an apex TXT REPLACE. -/
theorem claim_C4 {zone : Str} {repo : List (Str × List RecordDef)} {P : List RRSet}
    (hzl : toLowerStr zone = zone)
    (hwfat : WFSub zone (str "@"))
    (HK : (repo.map Prod.fst).Nodup)
    (HR : ∀ da ∈ repo.map Prod.fst, WFSub zone da)
    (HP : ∀ rr ∈ P, WFName zone rr.name)
    (hcn : (lookupSubs (loadRepo repo) (str "@")).filter
        (fun r => decide (r.rtype = str "CNAME")) ≠ [])
    (hnc : (lookupSubs (loadRepo repo) (str "@")).any
        (fun r => decide (r.rtype = str "A") || decide (r.rtype = str "AAAA")) = false) :
    (∀ op ∈ syncDNSRecords zone repo P, op.name = subdomainToFqdn zone (str "@") →
        op.changetype = ChangeType.REPLACE ∧ op.rtype ≠ str "CNAME") ∧
    (∃ op ∈ syncDNSRecords zone repo P, op.name = subdomainToFqdn zone (str "@") ∧
        op.rtype = str "ALIAS" ∧ op.changetype = ChangeType.REPLACE) := by
  constructor
  · intro op hop hname
    obtain ⟨hpp, -⟩ := mem_syncDNSRecords.mp hop
    obtain ⟨k, hk, hopk⟩ := mem_patchPayload.mp hpp
    obtain ⟨k1, k2⟩ := k
    have hwfk : WFSub zone k1 := changedRrsetKeys_wfsub HR HP hk
    have hk1 : k1 = str "@" := by
      apply subdomainToFqdn_inj hwfk hwfat
      rw [← opsForPair_name hopk, hname]
    rcases opsForPair_mem_shape hopk with ⟨hemp, rfl⟩ | ⟨-, hnc2, rfl⟩ | ⟨-, -, -, rfl⟩
    · exfalso
      rcases changedRrsetKeys_src hk with ⟨s, hsf, hks⟩ | ⟨s, hsd, hks⟩
      · have hk1s : k1 = s.subdomain := congrArg Prod.fst hks
        have hk2s : k2 = s.rtype := congrArg Prod.snd hks
        have hmem : s ∈ (lookupSubs (loadRepo repo) k1).filter
            (fun r => decide (r.rtype = k2)) := by
          rw [hk1s, hk2s]
          exact List.mem_filter.mpr ⟨flatSigs_mem_lookupSubs HK hsf, by simp⟩
        rw [hemp] at hmem
        cases hmem
      · have hk1s : k1 = s.subdomain := congrArg Prod.fst hks
        have hsub := (mem_runDiff_delete hsd).2
        rw [← hk1s, hk1] at hsub
        exact hsub (by decide)
    · exact ⟨rfl, hnc2⟩
    · refine ⟨rfl, ?_⟩
      show cnameFinalType zone (loadRepo repo) k1 ≠ str "CNAME"
      rw [hk1, cnameFinalType_at (loadRepo repo) hzl]
      decide
  · have hop := @opsForPair_cname_mem zone (loadRepo repo) (str "@") hcn hnc
    have hpair : ((str "@", str "CNAME") : Str × Str) ∈ changedRrsetKeys zone repo P := by
      obtain ⟨s, hs⟩ := List.exists_mem_of_ne_nil _ hcn
      have hsl := List.mem_of_mem_filter hs
      have hst : s.rtype = str "CNAME" := by simpa using List.of_mem_filter hs
      have hsd := lookupSubs_loadRepo_subdomain hsl
      rw [← hsd, ← hst]
      exact changedRrsetKeys_intro_repo (lookupSubs_subset_flatSigs hsl)
    have hmem := replace_mem_syncDNSRecords hpair hop rfl
    refine ⟨_, hmem, rfl, ?_, rfl⟩
    show cnameFinalType zone (loadRepo repo) (str "@") = str "ALIAS"
    exact cnameFinalType_at (loadRepo repo) hzl

theorem claim_C4_witness :
    (∀ op ∈ syncDNSRecords zone0 repoApexCT [],
        op.name = subdomainToFqdn zone0 (str "@") →
        op.changetype = ChangeType.REPLACE ∧ op.rtype ≠ str "CNAME") ∧
    (∃ op ∈ syncDNSRecords zone0 repoApexCT [],
        op.name = subdomainToFqdn zone0 (str "@") ∧
        op.rtype = str "ALIAS" ∧ op.changetype = ChangeType.REPLACE) :=
  claim_C4 (by decide) (by decide) (by decide) (by decide) (by decide) (by decide)
    (by decide)

theorem claim_C4_counterexample :
    ∃ op ∈ syncDNSRecords zone0 repoApexCT [],
      op.name = subdomainToFqdn zone0 (str "@") ∧ op.rtype = str "TXT" ∧
      op.rtype ≠ str "ALIAS" := by
  decide

/-- Claim C5 (amended): for a name with both a desired CNAME and a desired
A/AAAA record, every CNAME- or ALIAS-typed operation of the final full-zone
batch targeting that name is a DELETE — the desired CNAME RRSet is dropped
and never created or replaced. The original claim that no CNAME/ALIAS-typed
operation at all targets the name fails: a stale provider-held ALIAS RRSet
at the name is still cleaned up by an ALIAS-typed DELETE, as
claim_C5_counterexample shows. -/
theorem claim_C5 {zone : Str} {repo : List (Str × List RecordDef)} {P : List RRSet}
    {d0 : Str}
    (HR : ∀ da ∈ repo.map Prod.fst, WFSub zone da)
    (HP : ∀ rr ∈ P, WFName zone rr.name)
    (hwf0 : WFSub zone d0)
    (hA : (lookupSubs (loadRepo repo) d0).any
        (fun r => decide (r.rtype = str "A") || decide (r.rtype = str "AAAA")) = true)
    (hnal : ∀ r ∈ lookupSubs (loadRepo repo) d0, r.rtype ≠ str "ALIAS") :
    ∀ op ∈ syncDNSRecords zone repo P, op.name = subdomainToFqdn zone d0 →
      (op.rtype = str "CNAME" ∨ op.rtype = str "ALIAS") →
      op.changetype = ChangeType.DELETE := by
  intro op hop hname hct
  obtain ⟨hpp, -⟩ := mem_syncDNSRecords.mp hop
  obtain ⟨k, hk, hopk⟩ := mem_patchPayload.mp hpp
  obtain ⟨k1, k2⟩ := k
  have hwfk : WFSub zone k1 := changedRrsetKeys_wfsub HR HP hk
  have hk1 : k1 = d0 := by
    apply subdomainToFqdn_inj hwfk hwf0
    rw [← opsForPair_name hopk, hname]
  subst hk1
  rcases opsForPair_mem_shape hopk with ⟨-, rfl⟩ | ⟨hne2, hnc2, rfl⟩ | ⟨-, -, hca, -⟩
  · rfl
  · exfalso
    rcases hct with hct | hct
    · exact hnc2 hct
    · obtain ⟨r, hr⟩ := List.exists_mem_of_ne_nil _ hne2
      have hrl := List.mem_of_mem_filter hr
      have hrt : r.rtype = k2 := by simpa using List.of_mem_filter hr
      exact hnal r hrl (hrt.trans hct)
  · exfalso
    rw [hca] at hA
    exact absurd hA Bool.false_ne_true

theorem claim_C5_witness :
    (⟨str "app.is-an.ai.", str "ALIAS", DEFAULT_TTL, ChangeType.DELETE, []⟩ : PatchOp) ∈
      syncDNSRecords zone0 repoConflict provAliasStale ∧
    (⟨str "app.is-an.ai.", str "ALIAS", DEFAULT_TTL, ChangeType.DELETE, []⟩ : PatchOp).changetype
      = ChangeType.DELETE :=
  ⟨by decide,
   @claim_C5 zone0 repoConflict provAliasStale (str "app")
     (by decide) (by decide) (by decide) (by decide) (by decide)
     ⟨str "app.is-an.ai.", str "ALIAS", DEFAULT_TTL, ChangeType.DELETE, []⟩
     (by decide) (by decide) (Or.inr (by decide))⟩

theorem claim_C5_counterexample :
    ∃ op ∈ syncDNSRecords zone0 repoConflict provAliasStale,
      op.name = subdomainToFqdn zone0 (str "app") ∧ op.rtype = str "ALIAS" := by
  decide

/-- Claim C6 (amended): the incremental script emits the SOA serial REPLACE
exactly on surviving nonempty batches (never on a no-op pass), the emitted
SOA record carries nextSerial of the current serial and the current date,
and the transition increments a ten-digit serial whose rendering starts
with the rendered date and otherwise restarts at date times 100 plus 1
(whose date prefix is the date and whose suffix is 01). The original
same-day strict monotonicity fails at the two-digit counter rollover, as
claim_C6_counterexample shows. -/
theorem claim_C6 :
    (∀ (zone : Str) (deleted : List Str) (files : List (Str × List RecordDef))
        (P : List RRSet) (cur today : Nat),
      (incrPayload zone deleted files P = [] →
        processChanges zone deleted files P cur today = []) ∧
      (finalIncr zone deleted files P = [] →
        processChanges zone deleted files P cur today = []) ∧
      (finalIncr zone deleted files P ≠ [] →
        processChanges zone deleted files P cur today =
          finalIncr zone deleted files P ++ [soaOp zone cur today])) ∧
    (∀ (zone : Str) (cur today : Nat),
      (soaOp zone cur today).rtype = str "SOA" ∧
      (soaOp zone cur today).changetype = ChangeType.REPLACE ∧
      (soaOp zone cur today).records =
        [⟨str "ns1.is-an.ai. hostmaster.is-an.ai. " ++ natChars (nextSerial cur today) ++
            str " 10800 3600 604800 " ++ natChars SOA_MIN_TTL, none⟩]) ∧
    (∀ cur today : Nat,
      ((natChars cur).length = 10 → prefixOf (natChars today) (natChars cur) = true →
        nextSerial cur today = cur + 1) ∧
      (¬((natChars cur).length = 10 ∧ prefixOf (natChars today) (natChars cur) = true) →
        nextSerial cur today = today * 100 + 1 ∧
        (today * 100 + 1) / 100 = today ∧ (today * 100 + 1) % 100 = 1)) := by
  refine ⟨?_, ?_, ?_⟩
  · intro zone deleted files P cur today
    exact ⟨processChanges_of_payload_empty cur today,
      processChanges_of_final_empty cur today,
      processChanges_of_final_ne cur today⟩
  · intro zone cur today
    exact ⟨rfl, rfl, rfl⟩
  · intro cur today
    refine ⟨fun h1 h2 => nextSerial_same h1 h2, fun h => ⟨nextSerial_new h, ?_, ?_⟩⟩
    · omega
    · omega

theorem claim_C6_counterexample :
    nextSerial 2025101199 20251011 = 2025101200 ∧
    nextSerial 2025101200 20251011 = 2025101101 ∧
    ¬(2025101200 < 2025101101) ∧
    processChanges zoneI [] files6 [] 2025101199 20251011 =
      finalIncr zoneI [] files6 [] ++ [soaOp zoneI 2025101199 20251011] ∧
    finalIncr zoneI [] files6 [] ≠ [] ∧
    (soaOp zoneI 2025101199 20251011).records =
      [⟨str "ns1.is-an.ai. hostmaster.is-an.ai. 2025101200 10800 3600 604800 300", none⟩] ∧
    (soaOp zoneI 2025101200 20251011).records =
      [⟨str "ns1.is-an.ai. hostmaster.is-an.ai. 2025101101 10800 3600 604800 300", none⟩] := by
  decide

/-- Claim C7 (amended): the final batch of the full-zone script is
DELETE-before-REPLACE ordered — pairwise, and for every index pair. For the
incremental script the property fails: a CNAME cleanup DELETE can follow an
earlier type REPLACE, as claim_C7_counterexample shows. -/
theorem claim_C7 :
    ∀ (zone : Str) (repo : List (Str × List RecordDef)) (P : List RRSet),
      List.Pairwise (fun a b : PatchOp =>
        ¬(a.changetype = ChangeType.REPLACE ∧ b.changetype = ChangeType.DELETE))
        (syncDNSRecords zone repo P) ∧
      ∀ (i j : Fin (syncDNSRecords zone repo P).length), i < j →
        ¬(((syncDNSRecords zone repo P).get i).changetype = ChangeType.REPLACE ∧
          ((syncDNSRecords zone repo P).get j).changetype = ChangeType.DELETE) := by
  intro zone repo P
  have h := syncDNSRecords_order zone repo P
  exact ⟨h, List.pairwise_iff_get.mp h⟩

theorem claim_C7_counterexample :
    ¬ List.Pairwise (fun a b : PatchOp =>
        ¬(a.changetype = ChangeType.REPLACE ∧ b.changetype = ChangeType.DELETE))
      (processChanges zoneI [] files7 prov7 2025101101 20251011) := by
  decide

/-- Claim C9 (amended): on signatures whose subdomain, type and content are
free of the colon separator, the rendered key identifies signatures exactly
(equal keys iff equal fields); and the repository loaders build the key from
the raw authored value — a string value is stored verbatim as the signature
content and an MX exchange likewise, with no normalization at load time.
The original unconditional iff fails (a colon inside the content collides
with the priority separator), and the key is not built from canonical
content, as claim_C9_counterexample shows. -/
theorem claim_C9 :
    (∀ r1 r2 : RecordSig,
      ':' ∉ r1.subdomain → ':' ∉ r1.rtype → ':' ∉ r1.content →
      ':' ∉ r2.subdomain → ':' ∉ r2.rtype → ':' ∉ r2.content →
      (createRecordSignature r1 = createRecordSignature r2 ↔ r1 = r2)) ∧
    (∀ (d : Str) (rd : RecordDef) (s : RecordSig), s ∈ loadDefSigs d rd →
      (∀ v : Str, rd.value = RecordValue.strv v → s.content = v) ∧
      (∀ (p : Nat) (x : Str), rd.value = RecordValue.mxv p x → s.content = x)) := by
  refine ⟨?_, ?_⟩
  · intro r1 r2 h1s h1t h1c h2s h2t h2c
    constructor
    · exact createRecordSignature_inj h1s h1t h1c h2s h2t h2c
    · rintro rfl
      rfl
  · intro d rd s h
    refine ⟨(loadDefSigs_raw h).1, ?_⟩
    intro p x hv
    exact ((loadDefSigs_raw h).2 p x hv).1

theorem claim_C9_counterexample :
    createRecordSignature sigColon1 = createRecordSignature sigColon2 ∧
    sigColon1 ≠ sigColon2 ∧
    (∃ s ∈ loadDefSigs (str "w") cnameDef9,
      createRecordSignature s = str "w:CNAME:x.example.com" ∧
      normalizeContent s.rtype s.content ≠ s.content) := by
  decide

/-- Claim C10: in the Cloudflare sync, a DELETE failing with HTTP status 404
or a message containing "Record not found" is treated as success —
deleteDNSRecord returns true, and the loop accounting increments the success
count, not the failure count. -/
theorem claim_C10 {status : Option Nat} {message : Option Str}
    (h : status = some 404 ∨
      ∃ m : Str, message = some m ∧ containsSub (str "Record not found") m = true) :
    deleteDNSRecord false (CfDeleteResult.err status message) = true ∧
    ∀ counts : Nat × Nat,
      deleteStep false counts (CfDeleteResult.err status message) =
        (counts.1 + 1, counts.2) := by
  have hT : deleteDNSRecord false (CfDeleteResult.err status message) = true := by
    rcases h with h | ⟨m, rfl, hm⟩
    · simp [deleteDNSRecord, h]
    · simp [deleteDNSRecord, hm]
  refine ⟨hT, fun counts => ?_⟩
  simp [deleteStep, hT]

theorem claim_C10_witness :
    deleteDNSRecord false (CfDeleteResult.err (some 404) none) = true ∧
    ∀ counts : Nat × Nat,
      deleteStep false counts (CfDeleteResult.err (some 404) none) =
        (counts.1 + 1, counts.2) :=
  claim_C10 (Or.inl rfl)
